import Mathlib

/-!
Verification of the grid pathfinding program `astar.py`: the terrain
table, the `Node` data model, the weighted A* search driven by a
priority queue, path reconstruction, and the flood-fill repaint
operation.  Movement costs are Python floats in the source; every value
the program ever computes with them is an exact dyadic rational or the
float infinity, so costs are embedded as `WithTop ℚ`.
-/

namespace AstarSpec

/-- Color triple (red, green, blue). -/
abbrev Color := Nat × Nat × Nat

/-- Movement cost: an exact rational, or `⊤` for the float infinity. -/
abbrev Cost := WithTop ℚ

def RED_CLOSED : Color := (255, 150, 150)

def GREEN_OPEN : Color := (150, 255, 150)

def PURPLE_PATH : Color := (128, 0, 128)

def ORANGE_START : Color := (255, 165, 0)

def TURQUOISE_END : Color := (64, 224, 208)

def BLACK_OBSTACLE : Color := (50, 50, 50)

/-- Terrain table `TERRAIN_TYPES`: maps a key to (display name, color,
movement cost); any other key is absent from the dictionary. -/
def TERRAIN_TYPES (k : String) : Option (String × Color × Cost) :=
  if k = "GRASS" then some ("Grass", ((34, 139, 34) : Color), ((1 : ℚ) : Cost))
  else if k = "ROAD" then some ("Road", ((160, 160, 160) : Color), ((1/2 : ℚ) : Cost))
  else if k = "DIRT" then some ("Dirt", ((139, 69, 19) : Color), ((2 : ℚ) : Cost))
  else if k = "WATER" then some ("Water", ((30, 144, 255) : Color), ((5 : ℚ) : Cost))
  else if k = "OBSTACLE" then some ("Obstacle", BLACK_OBSTACLE, (⊤ : Cost))
  else none

def DEFAULT_TERRAIN : String := "GRASS"

/-- The two special node roles, `BRUSH_START` and `BRUSH_END`. -/
inductive Brush
  | START
  | END
deriving DecidableEq, Repr

/-- One grid cell.  Python stores object references for neighbors and
parent; since all nodes of a grid are distinct objects determined by
their coordinates, references are embedded as `(row, col)` pairs. -/
structure Node where
  row : Nat
  col : Nat
  total_rows : Nat
  terrain_type : String
  base_color : Color
  movement_cost : Cost
  current_display_color : Color
  is_special_node_type : Option Brush
  neighbors : List (Nat × Nat)
  parent : Option (Nat × Nat)
  g_cost : Cost
  h_cost : Cost
  f_cost : Cost
  is_in_open_set : Bool
  is_in_closed_set : Bool
  is_on_path : Bool
deriving DecidableEq, Repr

/-- `Node.__init__`: fresh cell at `(row, col)` with default terrain. -/
def Node.init (row col total_rows : Nat) : Node :=
  { row := row
    col := col
    total_rows := total_rows
    terrain_type := DEFAULT_TERRAIN
    base_color := ((TERRAIN_TYPES DEFAULT_TERRAIN).getD ("", (0,0,0), 0)).2.1
    movement_cost := ((TERRAIN_TYPES DEFAULT_TERRAIN).getD ("", (0,0,0), 0)).2.2
    current_display_color := ((TERRAIN_TYPES DEFAULT_TERRAIN).getD ("", (0,0,0), 0)).2.1
    is_special_node_type := none
    neighbors := []
    parent := none
    g_cost := ⊤
    h_cost := ⊤
    f_cost := ⊤
    is_in_open_set := false
    is_in_closed_set := false
    is_on_path := false }

/-- `Node._update_display_color`. -/
def Node._update_display_color (n : Node) : Node :=
  if n.is_special_node_type = some Brush.START then
    { n with current_display_color := ORANGE_START }
  else if n.is_special_node_type = some Brush.END then
    { n with current_display_color := TURQUOISE_END }
  else if n.is_on_path then { n with current_display_color := PURPLE_PATH }
  else if n.is_in_open_set then { n with current_display_color := GREEN_OPEN }
  else if n.is_in_closed_set then { n with current_display_color := RED_CLOSED }
  else { n with current_display_color := n.base_color }

/-- `Node._reset_astar_states`. -/
def Node._reset_astar_states (n : Node) : Node :=
  { n with g_cost := ⊤, h_cost := ⊤, f_cost := ⊤, parent := none,
           is_in_open_set := false, is_in_closed_set := false, is_on_path := false }

/-- `Node.set_terrain`: repaint the cell if the key is a valid terrain
kind, silently do nothing otherwise. -/
def Node.set_terrain (n : Node) (terrain_key : String) : Node :=
  match TERRAIN_TYPES terrain_key with
  | some info =>
      let n := { n with terrain_type := terrain_key,
                        base_color := info.2.1,
                        movement_cost := info.2.2 }
      let n := if n.is_special_node_type.isSome then
                 { n with is_special_node_type := none }
               else n
      n._reset_astar_states._update_display_color
  | none => n

/-- `Node.reset_to_default_terrain`. -/
def Node.reset_to_default_terrain (n : Node) : Node :=
  let n := if n.is_special_node_type.isSome then
             { n with is_special_node_type := none }
           else n
  n.set_terrain DEFAULT_TERRAIN

/-- `Node.make_special_node`. -/
def Node.make_special_node (n : Node) (node_type : Brush) : Node :=
  let n := { n with is_special_node_type := some node_type }
  let n := if node_type = Brush.START then { n with g_cost := (0 : ℚ) }
           else n._reset_astar_states
  let n := { n with is_in_open_set := false, is_in_closed_set := false,
                    is_on_path := false }
  n._update_display_color

/-- `Node.make_obstacle`. -/
def Node.make_obstacle (n : Node) : Node :=
  n.set_terrain "OBSTACLE"

/-- `Node.set_open`. -/
def Node.set_open (n : Node) : Node :=
  ({ n with is_in_open_set := true, is_in_closed_set := false,
            is_on_path := false })._update_display_color

/-- `Node.set_closed`. -/
def Node.set_closed (n : Node) : Node :=
  ({ n with is_in_open_set := false, is_in_closed_set := true,
            is_on_path := false })._update_display_color

/-- `Node.set_path`. -/
def Node.set_path (n : Node) : Node :=
  ({ n with is_in_open_set := false, is_in_closed_set := true,
            is_on_path := true })._update_display_color

/-- A grid is the row-major list of rows of nodes, as in the source. -/
abbrev Grid := List (List Node)

/-- Read the node at a coordinate (grid accesses in the source are always
in bounds; out-of-bounds reads return a default node). -/
def getNode (g : Grid) (p : Nat × Nat) : Node :=
  (g.getD p.1 []).getD p.2 (Node.init 0 0 0)

/-- Write the node at a coordinate (no-op out of bounds, as `List.set`). -/
def setNode (g : Grid) (p : Nat × Nat) (n : Node) : Grid :=
  g.set p.1 ((g.getD p.1 []).set p.2 n)

/-- Apply an update to the node at a coordinate. -/
def updNode (g : Grid) (p : Nat × Nat) (f : Node → Node) : Grid :=
  setNode g p (f (getNode g p))

/-- The coordinate is inside the materialized grid lists. -/
def inGrid (g : Grid) (p : Nat × Nat) : Prop :=
  p.1 < g.length ∧ p.2 < (g.getD p.1 []).length

instance (g : Grid) (p : Nat × Nat) : Decidable (inGrid g p) := by
  unfold inGrid; infer_instance

/-- `Node.update_neighbors`: rebuild the 4-neighbor list, keeping only
in-bounds cells of finite movement cost. -/
def Node.update_neighbors (n : Node) (grid : Grid) : Node :=
  let dirs : List (Int × Int) := [(0, 1), (0, -1), (1, 0), (-1, 0)]
  { n with neighbors :=
      dirs.foldl (fun acc d =>
        let nr : Int := (n.row : Int) + d.1
        let nc : Int := (n.col : Int) + d.2
        if 0 ≤ nr ∧ nr < (n.total_rows : Int) ∧ 0 ≤ nc ∧ nc < (n.total_rows : Int) then
          let neighbor_node := getNode grid (nr.toNat, nc.toNat)
          if neighbor_node.movement_cost ≠ (⊤ : Cost) then
            acc ++ [(nr.toNat, nc.toNat)]
          else acc
        else acc) [] }

/-- Heuristic `h`: Manhattan distance between two coordinates. -/
def h (p1 p2 : Nat × Nat) : Nat :=
  ((p1.1 : Int) - (p2.1 : Int)).natAbs + ((p1.2 : Int) - (p2.2 : Int)).natAbs

/-- `make_grid` (the pixel geometry is not modelled). -/
def make_grid (rows : Nat) : Grid :=
  (List.range rows).map (fun i => (List.range rows).map (fun j => Node.init i j rows))

/-- Rebuild adjacency for every cell, as the main loop does before a run.
The Python loop mutates `node.neighbors` in place while reading only
`movement_cost` from the grid, so a snapshot map is equivalent. -/
def updateAllNeighbors (g : Grid) : Grid :=
  g.map (fun row => row.map (fun n => n.update_neighbors g))

/-- An entry of the `PriorityQueue`: `(f_cost, count, node)`, where the
node is identified by its coordinates.  Python pops the smallest tuple;
counts are unique so the `Node.__lt__` fallback is never consulted. -/
abbrev Entry := Cost × Nat × (Nat × Nat)

/-- Lexicographic comparison used by the queue on `(f, count)`. -/
def entryLT (a b : Entry) : Prop :=
  a.1 < b.1 ∨ (a.1 = b.1 ∧ a.2.1 < b.2.1)

instance (a b : Entry) : Decidable (entryLT a b) := by
  unfold entryLT; infer_instance

/-- Non-strict lexicographic comparison on `(f, count)`. -/
def entryLE (a b : Entry) : Prop :=
  a.1 < b.1 ∨ (a.1 = b.1 ∧ a.2.1 ≤ b.2.1)

instance (a b : Entry) : Decidable (entryLE a b) := by
  unfold entryLE; infer_instance

/-- Keep the smaller entry, preferring the first on ties. -/
def pickMin (a b : Entry) : Entry :=
  if entryLT b a then b else a

/-- Pop the minimal entry from the queue, returning it and the rest. -/
def popMin (q : List Entry) : Option (Entry × List Entry) :=
  match q with
  | [] => none
  | e :: es =>
      let m := es.foldl pickMin e
      some (m, (e :: es).erase m)

/-- State of one A* run.  `popped` is a ghost trace of the coordinates
popped from the open set, in order; `stale_relax` counts relaxations that
improved a node already present in `open_set_hash` (which therefore did
not reinsert it); neither field is read by the algorithm. -/
structure AState where
  grid : Grid
  open_set : List Entry
  count : Nat
  open_set_hash : List (Nat × Nat)
  start : Nat × Nat
  goal : Nat × Nat
  popped : List (Nat × Nat)
  stale_relax : Nat
deriving Repr

/-- Body of the `for neighbor in current_node.neighbors` loop. -/
def relaxNeighbor (goal cur : Nat × Nat) (s : AState) (npos : Nat × Nat) : AState :=
  let current_node := getNode s.grid cur
  let neighbor := getNode s.grid npos
  let temp_g_cost := current_node.g_cost + neighbor.movement_cost
  if temp_g_cost < neighbor.g_cost then
    let neighbor := { neighbor with
      parent := some cur
      g_cost := temp_g_cost
      h_cost := ((h npos goal : ℚ) : Cost)
      f_cost := temp_g_cost + ((h npos goal : ℚ) : Cost) }
    if npos ∈ s.open_set_hash then
      { s with grid := setNode s.grid npos neighbor,
               stale_relax := s.stale_relax + 1 }
    else
      let neighbor := if neighbor.is_special_node_type.isSome then neighbor
                      else neighbor.set_open
      { s with grid := setNode s.grid npos neighbor,
               open_set := s.open_set ++ [(neighbor.f_cost, s.count + 1, npos)],
               count := s.count + 1,
               open_set_hash := s.open_set_hash ++ [npos] }
  else s

/-- Result of one iteration of the A* `while` loop. -/
inductive StepResult
  | found (s : AState)
  | empty (s : AState)
  | next (s : AState)
deriving Repr

/-- One iteration of the A* loop: pop, test for the goal, relax the
neighbors, close the current cell (the rendering calls are dropped). -/
def astarStep (s : AState) : StepResult :=
  match popMin s.open_set with
  | none => StepResult.empty s
  | some (e, rest) =>
      let pos := e.2.2
      let s := { s with open_set := rest,
                        open_set_hash := s.open_set_hash.erase pos,
                        grid := updNode s.grid pos
                          (fun n => { n with is_in_open_set := false }),
                        popped := s.popped ++ [pos] }
      if pos = s.goal then StepResult.found s
      else
        let current_node := getNode s.grid pos
        let s := current_node.neighbors.foldl (relaxNeighbor s.goal pos) s
        let s :=
          if pos ≠ s.start then
            { s with grid := updNode s.grid pos Node.set_closed }
          else
            { s with grid := updNode s.grid pos
                       (fun n => n.make_special_node Brush.START) }
        StepResult.next s

/-- Initialization in `algorithm` before the loop. -/
def astarInit (grid : Grid) (startPos endPos : Nat × Nat) : AState :=
  let start_node := getNode grid startPos
  let start_node := { start_node with
    h_cost := ((h startPos endPos : ℚ) : Cost)
    f_cost := start_node.g_cost + ((h startPos endPos : ℚ) : Cost) }
  let start_node := if start_node.is_special_node_type.isSome then start_node
                    else start_node.set_open
  { grid := setNode grid startPos start_node
    open_set := [(start_node.f_cost, 0, startPos)]
    count := 0
    open_set_hash := [startPos]
    start := startPos
    goal := endPos
    popped := []
    stale_relax := 0 }

/-- Outcome of a fueled A* run. -/
inductive AResult
  | success (s : AState)
  | failure (s : AState)
  | fuelOut (s : AState)
deriving Repr

/-- The A* `while` loop, with fuel for the unbounded Python loop. -/
def astarLoop : Nat → AState → AResult
  | 0, s => AResult.fuelOut s
  | fuel + 1, s =>
      match astarStep s with
      | StepResult.found s' => AResult.success s'
      | StepResult.empty s' => AResult.failure s'
      | StepResult.next s' => astarLoop fuel s'

/-- Run A* on a grid between two positions. -/
def runAstar (fuel : Nat) (grid : Grid) (startPos endPos : Nat × Nat) : AResult :=
  astarLoop fuel (astarInit grid startPos endPos)

/-- The parent chain from a coordinate (cut off by fuel). -/
def parentChain : Nat → Grid → Nat × Nat → List (Nat × Nat)
  | 0, _, p => [p]
  | fuel + 1, g, p =>
      match (getNode g p).parent with
      | none => [p]
      | some q => p :: parentChain fuel g q

/-- `reconstruct_path`: walk the parent links from the goal, marking the
interior cells, then restore the start and end visuals. -/
def reconstruct_path (fuel : Nat) (g : Grid) (cur startPos endPos : Nat × Nat) : Grid :=
  match fuel with
  | 0 => g
  | fuel + 1 =>
      match (getNode g cur).parent with
      | none =>
          let g := updNode g startPos (fun n => n.make_special_node Brush.START)
          updNode g endPos (fun n => n.make_special_node Brush.END)
      | some q =>
          let g := if cur ≠ endPos then updNode g cur Node.set_path else g
          reconstruct_path fuel g q startPos endPos

/-- State of the flood-fill BFS loop. -/
structure FillState where
  grid : Grid
  queue : List (Nat × Nat)
  visited : List (Nat × Nat)
  changed : Bool
deriving Repr

/-- One direction of the neighbor scan inside the flood-fill loop body:
enqueue the in-bounds, unvisited, matching neighbor. -/
def floodScanStep (rows : Nat) (fill_terrain_key target_terrain_key : String)
    (current_start_node current_end_node : Option (Nat × Nat))
    (rc : Nat × Nat) (st : FillState) (d : Int × Int) : FillState :=
  let nr : Int := (rc.1 : Int) + d.1
  let nc : Int := (rc.2 : Int) + d.2
  if 0 ≤ nr ∧ nr < (rows : Int) ∧ 0 ≤ nc ∧ nc < (rows : Int) ∧
      (nr.toNat, nc.toNat) ∉ st.visited then
    let neighbor := getNode st.grid (nr.toNat, nc.toNat)
    if neighbor.terrain_type = target_terrain_key ∧
        some (nr.toNat, nc.toNat) ≠ current_start_node ∧
        some (nr.toNat, nc.toNat) ≠ current_end_node ∧
        ¬(neighbor.terrain_type = "OBSTACLE" ∧ fill_terrain_key ≠ "OBSTACLE") then
      { st with visited := st.visited ++ [(nr.toNat, nc.toNat)],
                queue := st.queue ++ [(nr.toNat, nc.toNat)] }
    else st
  else st

/-- Body of the flood-fill `while q` loop for one dequeued coordinate:
re-validate, repaint, and enqueue the matching unvisited neighbors. -/
def floodBody (rows : Nat) (fill_terrain_key target_terrain_key : String)
    (current_start_node current_end_node : Option (Nat × Nat))
    (st : FillState) (rc : Nat × Nat) : FillState :=
  let current_node_in_fill := getNode st.grid rc
  if current_node_in_fill.terrain_type ≠ target_terrain_key then st
  else if some rc = current_start_node ∨ some rc = current_end_node then st
  else if current_node_in_fill.terrain_type = "OBSTACLE" ∧ fill_terrain_key ≠ "OBSTACLE" then st
  else
    let st := { st with
      grid := updNode st.grid rc (fun n => n.set_terrain fill_terrain_key)
      changed := true }
    let dirs : List (Int × Int) := [(0, 1), (0, -1), (1, 0), (-1, 0)]
    dirs.foldl
      (floodScanStep rows fill_terrain_key target_terrain_key
        current_start_node current_end_node rc) st

/-- The flood-fill `while q` loop, with fuel for the unbounded loop;
`none` means the fuel ran out before the queue emptied. -/
def floodLoop (rows : Nat) (fill_terrain_key target_terrain_key : String)
    (current_start_node current_end_node : Option (Nat × Nat)) :
    Nat → FillState → Option FillState
  | fuel, st =>
      match st.queue with
      | [] => some st
      | rc :: rest =>
          match fuel with
          | 0 => none
          | fuel + 1 =>
              floodLoop rows fill_terrain_key target_terrain_key
                current_start_node current_end_node fuel
                (floodBody rows fill_terrain_key target_terrain_key
                  current_start_node current_end_node { st with queue := rest } rc)

/-- `run_flood_fill`: precondition checks, then the BFS repaint.  The
start/end references are coordinates (`none` when no such node exists);
fuel `rows * rows` is enough for the loop to drain its queue (proved
below), so `none` is never actually returned on an in-bounds seed. -/
def run_flood_fill (grid : Grid) (rows start_r start_c : Nat)
    (fill_terrain_key : String)
    (current_start_node current_end_node : Option (Nat × Nat)) :
    Option (Grid × Bool) :=
  let node_to_start_fill := getNode grid (start_r, start_c)
  let target_terrain_key := node_to_start_fill.terrain_type
  if some (start_r, start_c) = current_start_node ∨
      some (start_r, start_c) = current_end_node then some (grid, false)
  else if target_terrain_key = fill_terrain_key then some (grid, false)
  else if target_terrain_key = "OBSTACLE" ∧ fill_terrain_key ≠ "OBSTACLE" then
    some (grid, false)
  else
    (floodLoop rows fill_terrain_key target_terrain_key
        current_start_node current_end_node (rows * rows)
        { grid := grid, queue := [(start_r, start_c)],
          visited := [(start_r, start_c)], changed := false }).map
      (fun st => (st.grid, st.changed))

/-- Repaint a fresh grid cell-by-cell from a table of terrain keys
(single-tile painting with each terrain brush, as the main loop does). -/
def paintGrid (g : Grid) (keys : List (List String)) : Grid :=
  g.map (fun rowNodes => rowNodes.map (fun n =>
    n.set_terrain ((keys.getD n.row []).getD n.col n.terrain_type)))

/-- Place the start and end roles, as the start/end brushes do. -/
def placeSpecial (g : Grid) (s e : Nat × Nat) : Grid :=
  updNode (updNode g s (fun n => n.make_special_node Brush.START)) e
    (fun n => n.make_special_node Brush.END)

/-- Build a grid from a terrain table, place the roles, rebuild adjacency:
the exact state handed to `algorithm` by the main loop. -/
def setupGrid (keys : List (List String)) (s e : Nat × Nat) : Grid :=
  updateAllNeighbors (placeSpecial (paintGrid (make_grid keys.length) keys) s e)

/-- An all-default (all-Grass) grid of size `rows`, with roles placed and
adjacency built. -/
def uniformGrid (rows : Nat) (s e : Nat × Nat) : Grid :=
  updateAllNeighbors (placeSpecial (make_grid rows) s e)

/-- The state carried by a step result. -/
def StepResult.state : StepResult → AState
  | StepResult.found s => s
  | StepResult.empty s => s
  | StepResult.next s => s

/-- The state carried by a run result. -/
def AResult.state : AResult → AState
  | AResult.success s => s
  | AResult.failure s => s
  | AResult.fuelOut s => s

/-- The run result is a success. -/
def AResult.isSuccess : AResult → Prop
  | AResult.success _ => True
  | _ => False

instance (r : AResult) : Decidable r.isSuccess := by
  unfold AResult.isSuccess; cases r <;> infer_instance

/-- One iteration of the A* loop, keeping the resulting state. -/
def stepOnce (s : AState) : AState :=
  (astarStep s).state

/-- The A* state after `k` iterations. -/
def afterSteps : Nat → AState → AState
  | 0, s => s
  | k + 1, s => afterSteps k (stepOnce s)

/-- At most one of the three derived search flags is set. -/
def atMostOneFlag (n : Node) : Prop :=
  ¬(n.is_in_open_set ∧ n.is_in_closed_set) ∧
  ¬(n.is_in_open_set ∧ n.is_on_path) ∧
  ¬(n.is_in_closed_set ∧ n.is_on_path)

instance (n : Node) : Decidable (atMostOneFlag n) := by
  unfold atMostOneFlag; infer_instance

/-- The flag combinations the program actually maintains: a cell is never
open and closed at once, and an on-path cell is always also closed. -/
def flagInv (n : Node) : Prop :=
  ¬(n.is_in_open_set ∧ n.is_in_closed_set) ∧
  (n.is_on_path → n.is_in_closed_set)

instance (n : Node) : Decidable (flagInv n) := by
  unfold flagInv; infer_instance

/-- Every cell of the grid satisfies `flagInv`. -/
def gridFlagInv (g : Grid) : Prop :=
  ∀ p, flagInv (getNode g p)

/-- A 4×4 board on which the A* engine pops, closes, and then re-expands
the cell `(0,2)`: the detour along the road row rediscovers it with a
strictly lower tentative cost after it was closed. -/
def cxGrid1 : Grid :=
  setupGrid [["GRASS", "DIRT", "GRASS", "WATER"],
             ["ROAD", "ROAD", "ROAD", "OBSTACLE"],
             ["OBSTACLE", "OBSTACLE", "OBSTACLE", "OBSTACLE"],
             ["OBSTACLE", "OBSTACLE", "OBSTACLE", "OBSTACLE"]] (0, 0) (0, 3)

/-- A 4×4 board on which the fifth pop takes the goal cell although the
open cell `(1,1)` holds a strictly smaller current `f_cost`: `(1,1)` was
improved in place while already open, so its queue priority is stale. -/
def cxGrid2 : Grid :=
  setupGrid [["GRASS", "DIRT", "GRASS", "DIRT"],
             ["ROAD", "ROAD", "ROAD", "OBSTACLE"],
             ["OBSTACLE", "OBSTACLE", "OBSTACLE", "OBSTACLE"],
             ["OBSTACLE", "OBSTACLE", "OBSTACLE", "OBSTACLE"]] (0, 0) (0, 3)

/-- The A* state of the `cxGrid2` run just before its fifth pop. -/
def c2State : AState := afterSteps 4 (astarInit cxGrid2 (0, 0) (0, 3))

/-- A small concrete A* state used to witness the re-insertion rule:
start placed at `(0,0)` with `g = 0`, goal `(1,1)`, empty queue. -/
def c1WitnessState : AState :=
  { grid := placeSpecial (make_grid 2) (0, 0) (1, 1)
    open_set := []
    count := 0
    open_set_hash := []
    start := (0, 0)
    goal := (1, 1)
    popped := []
    stale_relax := 0 }

/-- Shorthand: a natural number as a finite cost. -/
def cnat (k : Nat) : Cost := ((k : ℚ) : Cost)

/-- The coordinate lies on an `R × R` board. -/
def inb (R : Nat) (p : Nat × Nat) : Prop := p.1 < R ∧ p.2 < R

instance (R : Nat) (p : Nat × Nat) : Decidable (inb R p) := by
  unfold inb; infer_instance

/-- 4-adjacency of two coordinates. -/
def adjacent (p q : Nat × Nat) : Prop :=
  (p.1 = q.1 ∧ (q.2 = p.2 + 1 ∨ q.2 + 1 = p.2)) ∨
  (p.2 = q.2 ∧ (q.1 = p.1 + 1 ∨ q.1 + 1 = p.1))

instance (p q : Nat × Nat) : Decidable (adjacent p q) := by
  unfold adjacent; infer_instance

/-- The coordinate sits on some Manhattan-shortest path from `s` to `e`
inside the board: its f is the bottom value `h s e`.  These are exactly
the cells the uniform-grid A* run ever pops. -/
def classD (R : Nat) (s e p : Nat × Nat) : Prop :=
  inb R p ∧ h s p + h p e = h s e

/-- One step from `p` toward `q` (used for frontier arguments). -/
def stepToward (p q : Nat × Nat) : Nat × Nat :=
  if p.1 ≠ q.1 then (if p.1 < q.1 then (p.1 + 1, p.2) else (p.1 - 1, p.2))
  else (if p.2 < q.2 then (p.1, p.2 + 1) else (p.1, p.2 - 1))

/-- The static facts about a grid that the uniform-grid A* proof relies
on: an `R × R` board of cost-1 cells whose cached neighbor lists are
exactly 4-adjacency. -/
def staticOK (R : Nat) (g : Grid) : Prop :=
  g.length = R ∧ (∀ i, i < R → (g.getD i []).length = R) ∧
  ∀ p, inb R p →
    (getNode g p).movement_cost = cnat 1 ∧
    (∀ q, q ∈ (getNode g p).neighbors ↔ adjacent p q ∧ inb R q)

/-- The loop invariant of the A* run on a uniform cost-1 board: every
queue entry carries the priority `h s p + h p e` it was inserted with,
every discovered cell already holds its optimal g-cost `h s p`, popped
cells all lie on Manhattan-shortest s-e paths and are popped in
nondecreasing distance from `s`, and entry insertion counts respect that
order. -/
structure UInv (R : Nat) (s e : Nat × Nat) (st : AState) : Prop where
  static : staticOK R st.grid
  start_eq : st.start = s
  goal_eq : st.goal = e
  g_start : (getNode st.grid s).g_cost = cnat 0
  gopt : ∀ p, inb R p →
    (getNode st.grid p).g_cost = ⊤ ∨ (getNode st.grid p).g_cost = cnat (h s p)
  disc_iff : ∀ p, inb R p →
    ((getNode st.grid p).g_cost ≠ ⊤ ↔ (p ∈ st.popped ∨ p ∈ st.open_set_hash))
  popped_classD : ∀ p ∈ st.popped, classD R s e p
  popped_nodup : st.popped.Nodup
  hash_nodup : st.open_set_hash.Nodup
  hash_inb : ∀ p ∈ st.open_set_hash, inb R p
  hash_not_popped : ∀ p ∈ st.open_set_hash, p ∉ st.popped
  hash_entry : ∀ p ∈ st.open_set_hash, ∃ en ∈ st.open_set, en.2.2 = p
  entry_spec : ∀ en ∈ st.open_set, en.2.2 ∈ st.open_set_hash ∧
    en.1 = cnat (h s en.2.2 + h en.2.2 e) ∧ en.2.1 ≤ st.count
  entry_nodes_nodup : (st.open_set.map (fun en => en.2.2)).Nodup
  popped_relaxed : ∀ p ∈ st.popped, ∀ q, adjacent p q → inb R q →
    (getNode st.grid q).g_cost ≠ ⊤
  layer_mono : ∀ p ∈ st.popped, ∀ q, classD R s e q → q ∉ st.popped →
    h s p ≤ h s q
  entry_layer : ∀ en ∈ st.open_set, classD R s e en.2.2 →
    ∀ q, classD R s e q → q ∉ st.popped → h s en.2.2 ≤ h s q + 1
  entry_order : ∀ en1 ∈ st.open_set, ∀ en2 ∈ st.open_set,
    classD R s e en1.2.2 → classD R s e en2.2.2 →
    h s en1.2.2 < h s en2.2.2 → en1.2.1 < en2.2.1

/-- Termination measure of the A* loop on an `R × R` board: the queue
length plus the number of cells never yet discovered.  Every `next`
iteration strictly decreases it. -/
def ameasure (R : Nat) (st : AState) : Nat :=
  st.open_set.length + (R * R - (st.popped.length + st.open_set_hash.length))

/-- The state right after the pop at the top of the A* loop body. -/
def popState (st : AState) (en : Entry) (rest : List Entry) : AState :=
  { st with open_set := rest,
            open_set_hash := st.open_set_hash.erase en.2.2,
            grid := updNode st.grid en.2.2
              (fun n => { n with is_in_open_set := false }),
            popped := st.popped ++ [en.2.2] }

/-- The state after relaxing all neighbors of the popped cell. -/
def relaxedState (goal pos : Nat × Nat) (t : AState) : AState :=
  (getNode t.grid pos).neighbors.foldl (relaxNeighbor goal pos) t

/-- The state after the close step at the bottom of the loop body. -/
def closeState (pos : Nat × Nat) (t : AState) : AState :=
  if pos ≠ t.start then
    { t with grid := updNode t.grid pos Node.set_closed }
  else
    { t with grid := updNode t.grid pos
                       (fun n => n.make_special_node Brush.START) }

/-! Basic lemmas about grid reads and writes. -/

theorem getNode_setNode_ne (g : Grid) (q p : Nat × Nat) (n : Node) (hpq : p ≠ q) :
    getNode (setNode g q n) p = getNode g p := by
  obtain ⟨p1, p2⟩ := p
  obtain ⟨q1, q2⟩ := q
  rcases Decidable.eq_or_ne p1 q1 with rfl | h1
  · have h2 : p2 ≠ q2 := fun h2 => hpq (by rw [h2])
    simp only [getNode, setNode, List.getD_eq_getElem?_getD]
    by_cases hq : p1 < g.length
    · rw [List.getElem?_set_self hq]
      simp only [Option.getD_some, List.getElem?_set_ne (Ne.symm h2)]
    · rw [List.set_eq_of_length_le (Nat.le_of_not_lt hq)]
  · simp only [getNode, setNode, List.getD_eq_getElem?_getD,
      List.getElem?_set_ne (Ne.symm h1)]

theorem getNode_setNode_self (g : Grid) (q : Nat × Nat) (n : Node)
    (hq : inGrid g q) : getNode (setNode g q n) q = n := by
  obtain ⟨h1, h2⟩ := hq
  simp only [getNode, setNode, List.getD_eq_getElem?_getD]
  rw [List.getElem?_set_self h1]
  simp only [Option.getD_some]
  rw [List.getElem?_set_self]
  · simp
  · simpa [List.getD_eq_getElem?_getD] using h2

theorem setNode_not_inGrid (g : Grid) (q : Nat × Nat) (n : Node)
    (hq : ¬ inGrid g q) : setNode g q n = g := by
  unfold inGrid at hq
  push_neg at hq
  unfold setNode
  by_cases h1 : q.1 < g.length
  · have h2 := hq h1
    rw [List.set_eq_of_length_le h2]
    apply List.ext_getElem?
    intro i
    rcases Decidable.eq_or_ne i q.1 with rfl | hi
    · rw [List.getElem?_set_self h1]
      simp [List.getD_eq_getElem?_getD, List.getElem?_eq_getElem h1]
    · rw [List.getElem?_set_ne (Ne.symm hi)]
  · rw [List.set_eq_of_length_le (Nat.le_of_not_lt h1)]

theorem getNode_setNode (g : Grid) (q p : Nat × Nat) (n : Node) :
    getNode (setNode g q n) p =
      if p = q ∧ inGrid g q then n else getNode g p := by
  split
  · next hc => rw [hc.1, getNode_setNode_self g q n hc.2]
  · next hc =>
      rcases Decidable.not_and_iff_or_not.mp hc with hne | hout
      · exact getNode_setNode_ne g q p n hne
      · rw [setNode_not_inGrid g q n hout]

theorem getNode_updNode (g : Grid) (q p : Nat × Nat) (f : Node → Node) :
    getNode (updNode g q f) p =
      if p = q ∧ inGrid g q then f (getNode g q) else getNode g p :=
  getNode_setNode g q p (f (getNode g q))

theorem length_setNode (g : Grid) (q : Nat × Nat) (n : Node) :
    (setNode g q n).length = g.length := by
  simp [setNode]

theorem inGrid_setNode (g : Grid) (q p : Nat × Nat) (n : Node) :
    inGrid (setNode g q n) p ↔ inGrid g p := by
  obtain ⟨p1, p2⟩ := p
  obtain ⟨q1, q2⟩ := q
  unfold inGrid setNode
  simp only [List.length_set, List.getD_eq_getElem?_getD]
  rcases Decidable.eq_or_ne p1 q1 with rfl | h1
  · by_cases hq : p1 < g.length
    · rw [List.getElem?_set_self hq]
      cases hg : g[p1]? with
      | none => simp [List.getElem?_eq_none_iff] at hg; omega
      | some row => simp
    · rw [List.set_eq_of_length_le (Nat.le_of_not_lt hq)]
  · rw [List.getElem?_set_ne (Ne.symm h1)]

/-! C5: painting the same terrain twice equals painting it once. -/

/-- C5: for every cell and every valid terrain kind, `set_terrain` is
idempotent: the whole cell state after the second application equals the
state after the first. -/
theorem C5_set_terrain_idempotent (n : Node) (k : String)
    (hk : (TERRAIN_TYPES k).isSome) :
    (n.set_terrain k).set_terrain k = n.set_terrain k := by
  rcases ho : TERRAIN_TYPES k with _ | info
  · rw [ho] at hk; simp at hk
  · rcases hs : n.is_special_node_type with _ | b <;>
      simp [Node.set_terrain, ho, hs, Node._reset_astar_states,
        Node._update_display_color]

/-- Witness for C5 at a concrete cell and the Road kind. -/
theorem C5_witness :
    (TERRAIN_TYPES "ROAD").isSome = true ∧
      ((Node.init 2 3 7).set_terrain "ROAD").set_terrain "ROAD" =
        (Node.init 2 3 7).set_terrain "ROAD" :=
  ⟨by decide, C5_set_terrain_idempotent (Node.init 2 3 7) "ROAD" (by decide)⟩

/-! C9: an invalid terrain key leaves the cell untouched. -/

/-- C9: for every cell and every key outside the terrain table,
`set_terrain` is a silent no-op: the whole cell state is unchanged. -/
theorem C9_set_terrain_invalid_noop (n : Node) (k : String)
    (hk : TERRAIN_TYPES k = none) :
    n.set_terrain k = n := by
  simp [Node.set_terrain, hk]

/-- Witness for C9 at a concrete cell and the unknown key "LAVA". -/
theorem C9_witness :
    TERRAIN_TYPES "LAVA" = none ∧
      (Node.init 2 3 7).set_terrain "LAVA" = Node.init 2 3 7 :=
  ⟨by decide, C9_set_terrain_invalid_noop (Node.init 2 3 7) "LAVA" (by decide)⟩

/-! C3: the three derived flags.  `set_path` sets both the closed and the
on-path flag, so the three flags are not mutually exclusive; the invariant
that does hold is `flagInv`. -/

theorem update_display_color_flags (n : Node) :
    (n._update_display_color.is_in_open_set,
     n._update_display_color.is_in_closed_set,
     n._update_display_color.is_on_path) =
      (n.is_in_open_set, n.is_in_closed_set, n.is_on_path) := by
  unfold Node._update_display_color
  split_ifs <;> rfl

theorem flagInv_of_flags {n : Node}
    (hf : (n.is_in_open_set, n.is_in_closed_set, n.is_on_path) = (true, false, false) ∨
          (n.is_in_open_set, n.is_in_closed_set, n.is_on_path) = (false, true, false) ∨
          (n.is_in_open_set, n.is_in_closed_set, n.is_on_path) = (false, true, true) ∨
          (n.is_in_open_set, n.is_in_closed_set, n.is_on_path) = (false, false, false)) :
    flagInv n := by
  unfold flagInv
  rcases hf with hf | hf | hf | hf <;>
    simp only [Prod.mk.injEq] at hf <;>
    obtain ⟨h1, h2, h3⟩ := hf <;> simp [h1, h2, h3]

theorem flagInv_set_open (n : Node) : flagInv n.set_open := by
  apply flagInv_of_flags
  left
  unfold Node.set_open
  rw [update_display_color_flags]

theorem flagInv_set_closed (n : Node) : flagInv n.set_closed := by
  apply flagInv_of_flags
  right; left
  unfold Node.set_closed
  rw [update_display_color_flags]

theorem flagInv_set_path (n : Node) : flagInv n.set_path := by
  apply flagInv_of_flags
  right; right; left
  unfold Node.set_path
  rw [update_display_color_flags]

theorem flagInv_make_special_node (n : Node) (b : Brush) :
    flagInv (n.make_special_node b) := by
  apply flagInv_of_flags
  right; right; right
  unfold Node.make_special_node
  rw [update_display_color_flags]

theorem flagInv_reset_astar_states (n : Node) :
    flagInv n._reset_astar_states := by
  apply flagInv_of_flags
  right; right; right
  rfl

theorem flagInv_set_terrain (n : Node) (k : String) (hn : flagInv n) :
    flagInv (n.set_terrain k) := by
  unfold Node.set_terrain
  rcases ho : TERRAIN_TYPES k with _ | info
  · exact hn
  · apply flagInv_of_flags
    right; right; right
    rw [update_display_color_flags]
    rfl

theorem flagInv_same_flags {n m : Node}
    (ho : m.is_in_open_set = n.is_in_open_set)
    (hc : m.is_in_closed_set = n.is_in_closed_set)
    (hp : m.is_on_path = n.is_on_path) (hn : flagInv n) : flagInv m := by
  unfold flagInv at hn ⊢
  rw [ho, hc, hp]
  exact hn

theorem gridFlagInv_setNode {g : Grid} {n : Node} (p : Nat × Nat)
    (hg : gridFlagInv g) (hn : flagInv n) : gridFlagInv (setNode g p n) := by
  intro q
  rw [getNode_setNode]
  split
  · exact hn
  · exact hg q

theorem gridFlagInv_relaxNeighbor (goal cur : Nat × Nat) (s : AState)
    (hs : gridFlagInv s.grid) (np : Nat × Nat) :
    gridFlagInv (relaxNeighbor goal cur s np).grid := by
  simp only [relaxNeighbor]
  repeat' split
  all_goals
    first
      | exact hs
      | exact gridFlagInv_setNode np hs
          (flagInv_same_flags rfl rfl rfl (hs np))
      | exact gridFlagInv_setNode np hs (flagInv_set_open _)

theorem gridFlagInv_foldl_relax (goal cur : Nat × Nat) (l : List (Nat × Nat))
    (s : AState) (hs : gridFlagInv s.grid) :
    gridFlagInv ((l.foldl (relaxNeighbor goal cur) s).grid) := by
  induction l generalizing s with
  | nil => exact hs
  | cons a l ih =>
      exact ih _ (gridFlagInv_relaxNeighbor goal cur s hs a)

theorem flagInv_clear_open (n : Node) (hn : flagInv n) :
    flagInv { n with is_in_open_set := false } := by
  obtain ⟨h1, h2⟩ := hn
  exact ⟨by simp, h2⟩

theorem gridFlagInv_astarStep (s : AState) (hs : gridFlagInv s.grid) :
    gridFlagInv (astarStep s).state.grid := by
  rcases hpop : popMin s.open_set with _ | ⟨e, rest⟩
  · simp only [astarStep, hpop, StepResult.state]
    exact hs
  · simp only [astarStep, hpop]
    have h1 : gridFlagInv (updNode s.grid e.2.2
        (fun n => { n with is_in_open_set := false })) :=
      gridFlagInv_setNode _ hs (flagInv_clear_open _ (hs _))
    repeat' split
    all_goals try simp only [StepResult.state]
    all_goals
      first
        | exact h1
        | exact gridFlagInv_setNode _
            (gridFlagInv_foldl_relax _ _ _ _ h1) (flagInv_set_closed _)
        | exact gridFlagInv_setNode _
            (gridFlagInv_foldl_relax _ _ _ _ h1) (flagInv_make_special_node _ _)

theorem gridFlagInv_reconstruct (fuel : Nat) (g : Grid)
    (cur startPos endPos : Nat × Nat) (hg : gridFlagInv g) :
    gridFlagInv (reconstruct_path fuel g cur startPos endPos) := by
  induction fuel generalizing g cur with
  | zero => exact hg
  | succ fuel ih =>
      unfold reconstruct_path
      cases (getNode g cur).parent with
      | none =>
          exact gridFlagInv_setNode _
            (gridFlagInv_setNode _ hg (flagInv_make_special_node _ _))
            (flagInv_make_special_node _ _)
      | some q =>
          apply ih
          split
          · exact gridFlagInv_setNode _ hg (flagInv_set_path _)
          · exact hg

/-- C3 counterexample: after `set_path` on a fresh cell, both the closed
flag and the on-path flag are set, so the three derived flags are not
mutually exclusive. -/
theorem C3_counterexample : ¬ atMostOneFlag ((Node.init 0 0 5).set_path) := by
  decide

/-- C3 as amended: under every listed operation (fresh cell, `set_open`,
`set_closed`, `set_path`, `set_terrain`, `make_special_node`, one A* loop
iteration, path reconstruction) every cell satisfies `flagInv`: it is
never open and closed at once, and an on-path cell is always also closed
— but `set_path` makes closed and on-path hold together, so only the
open flag excludes the other two. -/
theorem C3_amended :
    (∀ r c t, flagInv (Node.init r c t)) ∧
    (∀ n : Node, flagInv n.set_open) ∧
    (∀ n : Node, flagInv n.set_closed) ∧
    (∀ n : Node, flagInv n.set_path) ∧
    (∀ (n : Node) (k : String), flagInv n → flagInv (n.set_terrain k)) ∧
    (∀ (n : Node) (b : Brush), flagInv (n.make_special_node b)) ∧
    (∀ s : AState, gridFlagInv s.grid → gridFlagInv (astarStep s).state.grid) ∧
    (∀ fuel g cur startPos endPos, gridFlagInv g →
      gridFlagInv (reconstruct_path fuel g cur startPos endPos)) :=
  ⟨fun r c t => flagInv_of_flags (Or.inr (Or.inr (Or.inr rfl))),
   flagInv_set_open, flagInv_set_closed, flagInv_set_path,
   flagInv_set_terrain, flagInv_make_special_node,
   gridFlagInv_astarStep,
   fun fuel g cur startPos endPos =>
     gridFlagInv_reconstruct fuel g cur startPos endPos⟩

/-- Witness for C3 as amended, at a concrete cell and terrain kind. -/
theorem C3_amended_witness : flagInv ((Node.init 1 2 5).set_terrain "DIRT") :=
  C3_amended.2.2.2.2.1 (Node.init 1 2 5) "DIRT" (by decide)

/-! C8: characterization of `update_neighbors`. -/

theorem mem_foldl_two_ifs {α β : Type} (dirs : List α) (C1 C2 : α → Prop)
    [DecidablePred C1] [DecidablePred C2] (coord : α → β) (init : List β)
    (p : β) :
    (p ∈ dirs.foldl
        (fun acc d => if C1 d then
          (if C2 d then acc ++ [coord d] else acc) else acc) init) ↔
      p ∈ init ∨ ∃ d ∈ dirs, C1 d ∧ C2 d ∧ p = coord d := by
  induction dirs generalizing init with
  | nil => simp
  | cons a l ih =>
      simp only [List.foldl_cons, List.mem_cons]
      rw [ih]
      by_cases h1 : C1 a
      · by_cases h2 : C2 a
        · simp only [if_pos h1, if_pos h2, List.mem_append,
            List.mem_singleton]
          constructor
          · rintro ((hp | hp) | hp)
            · exact Or.inl hp
            · exact Or.inr ⟨a, Or.inl rfl, h1, h2, hp⟩
            · obtain ⟨d, hd, hc⟩ := hp
              exact Or.inr ⟨d, Or.inr hd, hc⟩
          · rintro (hp | ⟨d, (rfl | hd), hc⟩)
            · exact Or.inl (Or.inl hp)
            · exact Or.inl (Or.inr hc.2.2)
            · exact Or.inr ⟨d, hd, hc⟩
        · simp only [if_pos h1, if_neg h2]
          constructor
          · rintro (hp | ⟨d, hd, hc⟩)
            · exact Or.inl hp
            · exact Or.inr ⟨d, Or.inr hd, hc⟩
          · rintro (hp | ⟨d, (rfl | hd), hc⟩)
            · exact Or.inl hp
            · exact absurd hc.2.1 h2
            · exact Or.inr ⟨d, hd, hc⟩
      · simp only [if_neg h1]
        constructor
        · rintro (hp | ⟨d, hd, hc⟩)
          · exact Or.inl hp
          · exact Or.inr ⟨d, Or.inr hd, hc⟩
        · rintro (hp | ⟨d, (rfl | hd), hc⟩)
          · exact Or.inl hp
          · exact absurd hc.1 h1
          · exact Or.inr ⟨d, hd, hc⟩

theorem length_foldl_two_ifs {α β : Type} (dirs : List α) (C1 C2 : α → Prop)
    [DecidablePred C1] [DecidablePred C2] (coord : α → β) (init : List β) :
    (dirs.foldl
        (fun acc d => if C1 d then
          (if C2 d then acc ++ [coord d] else acc) else acc) init).length ≤
      init.length + dirs.length := by
  induction dirs generalizing init with
  | nil => simp
  | cons a l ih =>
      simp only [List.foldl_cons, List.length_cons]
      calc (List.foldl _ (if C1 a then
            (if C2 a then init ++ [coord a] else init) else init) l).length ≤
          (if C1 a then (if C2 a then init ++ [coord a] else init)
            else init).length + l.length := ih _
        _ ≤ init.length + (l.length + 1) := by
            split_ifs <;> simp <;> omega

theorem mem_update_neighbors (n : Node) (grid : Grid) :
    ∀ p : Nat × Nat, p ∈ (n.update_neighbors grid).neighbors ↔
      (((p.1 = n.row ∧ (p.2 = n.col + 1 ∨ p.2 + 1 = n.col)) ∨
        (p.2 = n.col ∧ (p.1 = n.row + 1 ∨ p.1 + 1 = n.row))) ∧
       p.1 < n.total_rows ∧ p.2 < n.total_rows ∧
       (getNode grid p).movement_cost ≠ (⊤ : Cost)) := by
    intro p
    simp only [Node.update_neighbors]
    rw [mem_foldl_two_ifs [(0, 1), (0, -1), (1, 0), (-1, 0)]
      (fun d : Int × Int => 0 ≤ (n.row : Int) + d.1 ∧
        (n.row : Int) + d.1 < (n.total_rows : Int) ∧
        0 ≤ (n.col : Int) + d.2 ∧ (n.col : Int) + d.2 < (n.total_rows : Int))
      (fun d : Int × Int =>
        (getNode grid (((n.row : Int) + d.1).toNat,
          ((n.col : Int) + d.2).toNat)).movement_cost ≠ (⊤ : Cost))
      (fun d : Int × Int => (((n.row : Int) + d.1).toNat,
        ((n.col : Int) + d.2).toNat)) [] p]
    simp only [List.mem_cons, List.not_mem_nil, or_false, List.mem_singleton]
    constructor
    · rintro (hp | ⟨d, hd, hb, hc, rfl⟩)
      · simp at hp
      · rcases hd with rfl | rfl | rfl | rfl
        · refine ⟨Or.inl ⟨by omega, Or.inl (by omega)⟩, by omega, by omega, hc⟩
        · refine ⟨Or.inl ⟨by omega, Or.inr (by omega)⟩, by omega, by omega, hc⟩
        · refine ⟨Or.inr ⟨by omega, Or.inl (by omega)⟩, by omega, by omega, hc⟩
        · refine ⟨Or.inr ⟨by omega, Or.inr (by omega)⟩, by omega, by omega, hc⟩
    · rintro ⟨hadj, hr, hcth, hcost⟩
      right
      rcases hadj with ⟨h1, h2 | h2⟩ | ⟨h1, h2 | h2⟩
      · refine ⟨(0, 1), by simp, by constructor <;> omega, ?_, ?_⟩ <;>
          [skip; skip] <;>
          · have hpq : ((((n.row : Int) + 0).toNat,
                ((n.col : Int) + 1).toNat) : Nat × Nat) = p :=
              Prod.ext (by omega) (by omega)
            rw [hpq] <;> first | exact hcost | rfl
      · refine ⟨(0, -1), by simp, by constructor <;> omega, ?_, ?_⟩ <;>
          · have hpq : ((((n.row : Int) + 0).toNat,
                ((n.col : Int) + (-1)).toNat) : Nat × Nat) = p :=
              Prod.ext (by omega) (by omega)
            rw [hpq] <;> first | exact hcost | rfl
      · refine ⟨(1, 0), by simp, by constructor <;> omega, ?_, ?_⟩ <;>
          · have hpq : ((((n.row : Int) + 1).toNat,
                ((n.col : Int) + 0).toNat) : Nat × Nat) = p :=
              Prod.ext (by omega) (by omega)
            rw [hpq] <;> first | exact hcost | rfl
      · refine ⟨(-1, 0), by simp, by constructor <;> omega, ?_, ?_⟩ <;>
          · have hpq : ((((n.row : Int) + (-1)).toNat,
                ((n.col : Int) + 0).toNat) : Nat × Nat) = p :=
              Prod.ext (by omega) (by omega)
            rw [hpq] <;> first | exact hcost | rfl
/-- C8: after `update_neighbors`, the neighbor list holds exactly the
4-adjacent in-bounds cells of finite movement cost; hence it has at most
four entries and never an infinite-cost (Obstacle) cell. -/
theorem C8_update_neighbors (n : Node) (grid : Grid) :
    (∀ p : Nat × Nat, p ∈ (n.update_neighbors grid).neighbors ↔
      (((p.1 = n.row ∧ (p.2 = n.col + 1 ∨ p.2 + 1 = n.col)) ∨
        (p.2 = n.col ∧ (p.1 = n.row + 1 ∨ p.1 + 1 = n.row))) ∧
       p.1 < n.total_rows ∧ p.2 < n.total_rows ∧
       (getNode grid p).movement_cost ≠ (⊤ : Cost))) ∧
    (n.update_neighbors grid).neighbors.length ≤ 4 ∧
    (∀ p ∈ (n.update_neighbors grid).neighbors,
      (getNode grid p).movement_cost ≠ (⊤ : Cost)) := by
  refine ⟨mem_update_neighbors n grid, ?_,
    fun p hp => ((mem_update_neighbors n grid p).mp hp).2.2.2⟩
  · simp only [Node.update_neighbors]
    calc (List.foldl _ [] [((0 : Int), (1 : Int)), (0, -1), (1, 0), (-1, 0)]).length ≤
        ([] : List (Nat × Nat)).length + 4 := by
          exact length_foldl_two_ifs _ _ _ _ _
      _ = 4 := by simp

/-! C6, C7, C10: flood fill. -/

/-- C6: every precondition failure makes `run_flood_fill` a silent no-op
returning the unchanged grid and `false`. -/
theorem C6_flood_precondition_noop (grid : Grid) (rows r c : Nat)
    (key : String) (s e : Option (Nat × Nat))
    (hpre : some (r, c) = s ∨ some (r, c) = e ∨
      (getNode grid (r, c)).terrain_type = key ∨
      ((getNode grid (r, c)).terrain_type = "OBSTACLE" ∧ key ≠ "OBSTACLE")) :
    run_flood_fill grid rows r c key s e = some (grid, false) := by
  simp only [run_flood_fill]
  split
  · rfl
  · split
    · rfl
    · split
      · rfl
      · next h1 h2 h3 =>
          rcases hpre with hp | hp | hp | hp
          · exact absurd (Or.inl hp) h1
          · exact absurd (Or.inr hp) h1
          · exact absurd hp h2
          · exact absurd hp h3

/-- Witness for C6: repainting a Grass seed with Grass is a no-op. -/
theorem C6_witness :
    run_flood_fill (make_grid 3) 3 1 1 "GRASS" none none =
      some (make_grid 3, false) :=
  C6_flood_precondition_noop (make_grid 3) 3 1 1 "GRASS" none none
    (Or.inr (Or.inr (Or.inl (by decide))))

theorem floodScanStep_cases (rows : Nat) (fk tk : String)
    (s e : Option (Nat × Nat)) (rc : Nat × Nat) (st : FillState)
    (d : Int × Int) :
    floodScanStep rows fk tk s e rc st d = st ∨
    ∃ q : Nat × Nat, q.1 < rows ∧ q.2 < rows ∧ q ∉ st.visited ∧
      floodScanStep rows fk tk s e rc st d =
        { st with visited := st.visited ++ [q], queue := st.queue ++ [q] } := by
  simp only [floodScanStep]
  split
  · next hb =>
      split
      · refine Or.inr ⟨_, ?_, ?_, hb.2.2.2.2, rfl⟩ <;> omega
      · exact Or.inl rfl
  · exact Or.inl rfl

theorem floodScan_spec (rows : Nat) (fk tk : String)
    (s e : Option (Nat × Nat)) (rc : Nat × Nat) (dirs : List (Int × Int)) :
    ∀ st : FillState,
      ∃ new : List (Nat × Nat),
        (dirs.foldl (floodScanStep rows fk tk s e rc) st).grid = st.grid ∧
        (dirs.foldl (floodScanStep rows fk tk s e rc) st).queue =
          st.queue ++ new ∧
        (dirs.foldl (floodScanStep rows fk tk s e rc) st).visited =
          st.visited ++ new ∧
        (∀ q ∈ new, q.1 < rows ∧ q.2 < rows) ∧
        (st.visited.Nodup → (st.visited ++ new).Nodup) := by
  induction dirs with
  | nil => exact fun st => ⟨[], rfl, by simp, by simp, by simp, by simp⟩
  | cons d dirs ih =>
      intro st
      simp only [List.foldl_cons]
      rcases floodScanStep_cases rows fk tk s e rc st d with hstep | ⟨q, hq1, hq2, hq3, hstep⟩
      · rw [hstep]
        exact ih st
      · rw [hstep]
        obtain ⟨new, h1, h2, h3, h4, h5⟩ :=
          ih { st with visited := st.visited ++ [q], queue := st.queue ++ [q] }
        refine ⟨q :: new, ?_, ?_, ?_, ?_, ?_⟩
        · simpa using h1
        · simpa using h2
        · simpa using h3
        · intro x hx
          rcases List.mem_cons.mp hx with rfl | hx
          · exact ⟨hq1, hq2⟩
          · exact h4 x hx
        · intro hnd
          have hnd' : (st.visited ++ [q]).Nodup := by
            rw [List.nodup_append]
            refine ⟨hnd, List.nodup_singleton q, ?_⟩
            intro x hx hq
            rw [List.mem_singleton] at hq
            subst hq
            exact hq3 hx
          have hres := h5 (by simpa using hnd')
          simpa using hres

theorem floodBody_spec (rows : Nat) (fk tk : String)
    (s e : Option (Nat × Nat)) (st : FillState) (rc : Nat × Nat) :
    ∃ new : List (Nat × Nat),
      (floodBody rows fk tk s e st rc).queue = st.queue ++ new ∧
      (floodBody rows fk tk s e st rc).visited = st.visited ++ new ∧
      (∀ q ∈ new, q.1 < rows ∧ q.2 < rows) ∧
      (st.visited.Nodup → (st.visited ++ new).Nodup) := by
  simp only [floodBody]
  split
  · exact ⟨[], by simp, by simp, by simp, by simp⟩
  · split
    · exact ⟨[], by simp, by simp, by simp, by simp⟩
    · split
      · exact ⟨[], by simp, by simp, by simp, by simp⟩
      · obtain ⟨new, h1, h2, h3, h4, h5⟩ := floodScan_spec rows fk tk s e rc
          [(0, 1), (0, -1), (1, 0), (-1, 0)]
          { st with
            grid := updNode st.grid rc (fun n => n.set_terrain fk)
            changed := true }
        exact ⟨new, h2, h3, h4, h5⟩

theorem floodBody_protected (rows : Nat) (fk tk : String)
    (s e : Option (Nat × Nat)) (st : FillState) (rc p : Nat × Nat)
    (hp : some p = s ∨ some p = e) :
    getNode (floodBody rows fk tk s e st rc).grid p = getNode st.grid p := by
  simp only [floodBody]
  split
  · rfl
  · split
    · rfl
    · split
      · rfl
      · next h1 h2 h3 =>
          obtain ⟨new, hg, -, -, -, -⟩ := floodScan_spec rows fk tk s e rc
            [(0, 1), (0, -1), (1, 0), (-1, 0)]
            { st with
              grid := updNode st.grid rc (fun n => n.set_terrain fk)
              changed := true }
          rw [hg]
          have hne : p ≠ rc := by
            intro hpe
            subst hpe
            rcases hp with hp | hp
            · exact h2 (Or.inl hp)
            · exact h2 (Or.inr hp)
          exact getNode_setNode_ne _ _ _ _ hne

theorem floodLoop_protected (rows : Nat) (fk tk : String)
    (s e : Option (Nat × Nat)) (p : Nat × Nat)
    (hp : some p = s ∨ some p = e) :
    ∀ (fuel : Nat) (st st' : FillState),
      floodLoop rows fk tk s e fuel st = some st' →
      getNode st'.grid p = getNode st.grid p := by
  intro fuel
  induction fuel with
  | zero =>
      intro st st' hloop
      unfold floodLoop at hloop
      rcases hq : st.queue with _ | ⟨rc, rest⟩ <;> rw [hq] at hloop
      · obtain rfl := Option.some.inj hloop
        rfl
      · simp at hloop
  | succ fuel ih =>
      intro st st' hloop
      unfold floodLoop at hloop
      rcases hq : st.queue with _ | ⟨rc, rest⟩ <;> rw [hq] at hloop
      · have : st = st' := by simpa using hloop
        rw [this]
      · have h1 := ih _ _ hloop
        rw [h1, floodBody_protected rows fk tk s e _ rc p hp]

/-- C7: a run of `run_flood_fill` never changes the start node or the end
node: the cells they reference are identical (terrain, movement cost,
role, search state and all) before and after the fill. -/
theorem C7_flood_protects_start_end (grid : Grid) (rows r c : Nat)
    (key : String) (s e : Option (Nat × Nat)) (res : Grid × Bool)
    (p : Nat × Nat) (hres : run_flood_fill grid rows r c key s e = some res)
    (hp : some p = s ∨ some p = e) :
    getNode res.1 p = getNode grid p := by
  simp only [run_flood_fill] at hres
  split at hres
  · cases hres; rfl
  · split at hres
    · cases hres; rfl
    · split at hres
      · cases hres; rfl
      · rcases Option.map_eq_some'.mp hres with ⟨st', hloop, hst'⟩
        subst hst'
        exact floodLoop_protected rows key _ s e p hp _ _ _ hloop

/-- Witness for C7: flooding Road next to the Start corner of an
all-Grass board leaves the Start cell untouched. -/
theorem C7_witness :
    getNode ((run_flood_fill (placeSpecial (make_grid 3) (0, 0) (2, 2)) 3 1 1
        "ROAD" (some (0, 0)) (some (2, 2))).getD
          (placeSpecial (make_grid 3) (0, 0) (2, 2), false)).1 (0, 0) =
      getNode (placeSpecial (make_grid 3) (0, 0) (2, 2)) (0, 0) := by
  have := C7_flood_protects_start_end
    (placeSpecial (make_grid 3) (0, 0) (2, 2)) 3 1 1 "ROAD"
    (some (0, 0)) (some (2, 2))
    ((run_flood_fill (placeSpecial (make_grid 3) (0, 0) (2, 2)) 3 1 1
        "ROAD" (some (0, 0)) (some (2, 2))).getD
          (placeSpecial (make_grid 3) (0, 0) (2, 2), false))
    (0, 0) (by with_unfolding_all decide) (Or.inl rfl)
  exact this

theorem nodup_bounded_length (rows : Nat) (l : List (Nat × Nat))
    (hnd : l.Nodup) (hbd : ∀ q ∈ l, q.1 < rows ∧ q.2 < rows) :
    l.length ≤ rows * rows := by
  classical
  have hsub : l.toFinset ⊆ Finset.range rows ×ˢ Finset.range rows := by
    intro q hq
    rw [List.mem_toFinset] at hq
    rcases hbd q hq with ⟨hq1, hq2⟩
    rw [Finset.mem_product, Finset.mem_range, Finset.mem_range]
    exact ⟨hq1, hq2⟩
  have hcard := Finset.card_le_card hsub
  simp only [Finset.card_product, Finset.card_range] at hcard
  rwa [List.toFinset_card_of_nodup hnd] at hcard

theorem floodLoop_some (rows : Nat) (fk tk : String)
    (s e : Option (Nat × Nat)) :
    ∀ (fuel : Nat) (st : FillState), st.visited.Nodup →
      (∀ q ∈ st.visited, q.1 < rows ∧ q.2 < rows) →
      st.queue.length + (rows * rows - st.visited.length) ≤ fuel →
      (floodLoop rows fk tk s e fuel st).isSome := by
  intro fuel
  induction fuel with
  | zero =>
      intro st hnd hbd hm
      unfold floodLoop
      rcases hq : st.queue with _ | ⟨rc, rest⟩
      · simp
      · rw [hq] at hm
        simp at hm
  | succ fuel ih =>
      intro st hnd hbd hm
      unfold floodLoop
      rcases hq : st.queue with _ | ⟨rc, rest⟩
      · simp
      · simp only []
        obtain ⟨new, h1, h2, h3, h4⟩ :=
          floodBody_spec rows fk tk s e { st with queue := rest } rc
        apply ih
        · rw [h2]
          exact h4 hnd
        · rw [h2]
          intro q hqm
          rcases List.mem_append.mp hqm with hqm | hqm
          · exact hbd q hqm
          · exact h3 q hqm
        · have hlen : (floodBody rows fk tk s e { st with queue := rest } rc).visited.length =
              st.visited.length + new.length := by
            rw [h2]; simp
          have hqlen : (floodBody rows fk tk s e { st with queue := rest } rc).queue.length =
              rest.length + new.length := by
            rw [h1]; simp
          have hbound : st.visited.length + new.length ≤ rows * rows := by
            have := nodup_bounded_length rows _ (h4 hnd) ?_
            · simpa using this
            · intro q hqm
              rcases List.mem_append.mp hqm with hqm | hqm
              · exact hbd q hqm
              · exact h3 q hqm
          rw [hlen, hqlen]
          rw [hq] at hm
          simp only [List.length_cons] at hm
          omega

/-- C10: `run_flood_fill` always terminates: starting from an in-bounds
seed, the BFS queue drains within `rows * rows` dequeues, so the run
always produces a result. -/
theorem C10_flood_terminates (grid : Grid) (rows r c : Nat) (key : String)
    (s e : Option (Nat × Nat)) (hr : r < rows) (hc : c < rows) :
    (run_flood_fill grid rows r c key s e).isSome := by
  simp only [run_flood_fill]
  split
  · simp
  · split
    · simp
    · split
      · simp
      · have hl : (floodLoop rows key (getNode grid (r, c)).terrain_type s e
            (rows * rows)
            { grid := grid, queue := [(r, c)], visited := [(r, c)],
              changed := false }).isSome := by
          apply floodLoop_some rows key _ s e (rows * rows)
          · exact List.nodup_singleton _
          · intro q hq
            rw [List.mem_singleton] at hq
            subst hq
            exact ⟨hr, hc⟩
          · have hpos : 1 ≤ rows * rows := Nat.mul_pos (by omega) (by omega)
            simp only [List.length_singleton]
            omega
        obtain ⟨st', hst'⟩ := Option.isSome_iff_exists.mp hl
        simp [hst']

/-- Witness for C10 at a concrete grid and seed. -/
theorem C10_witness :
    (run_flood_fill (make_grid 3) 3 1 1 "ROAD" none none).isSome :=
  C10_flood_terminates (make_grid 3) 3 1 1 "ROAD" none none
    (by decide) (by decide)

/-! C1: closed cells are not final: the engine re-expands a closed cell
when a relaxation strictly improves its g-cost. -/

/-- C1 counterexample: on `cxGrid1` the cell `(0,2)` is popped at the
third iteration and closed (its closed flag is set afterwards), yet the
popped trace of the full run lists `(0,2)` twice: the engine re-inserts
and re-expands it after the road detour improves its g-cost. -/
theorem C1_counterexample :
    (runAstar 50 cxGrid1 (0, 0) (0, 3)).state.popped =
      [(0, 0), (0, 1), (0, 2), (1, 0), (1, 1), (1, 2), (0, 2), (0, 3)] ∧
    (getNode (afterSteps 3 (astarInit cxGrid1 (0, 0) (0, 3))).grid
        (0, 2)).is_in_closed_set = true := by
  constructor <;> with_unfolding_all decide

theorem gcost_relaxNeighbor_le (goal cur : Nat × Nat) (s : AState)
    (np p : Nat × Nat) :
    (getNode (relaxNeighbor goal cur s np).grid p).g_cost ≤
      (getNode s.grid p).g_cost := by
  simp only [relaxNeighbor]
  split
  · next hlt =>
      have hset : ∀ (m : Node), m.g_cost = (getNode s.grid cur).g_cost +
          (getNode s.grid np).movement_cost →
          (getNode (setNode s.grid np m) p).g_cost ≤
            (getNode s.grid p).g_cost := by
        intro m hm
        rw [getNode_setNode]
        split
        · next hc =>
            rw [hm, hc.1]
            exact le_of_lt hlt
        · exact le_refl _
      split
      · exact hset _ rfl
      · split
        · exact hset _ rfl
        · refine hset _ ?_
          simp only [Node.set_open, Node._update_display_color]
          split_ifs <;> rfl
  · exact le_refl _

theorem gcost_foldl_relax_le (goal cur : Nat × Nat) (ns : List (Nat × Nat)) :
    ∀ (s : AState) (p : Nat × Nat),
      (getNode (ns.foldl (relaxNeighbor goal cur) s).grid p).g_cost ≤
        (getNode s.grid p).g_cost := by
  induction ns with
  | nil => exact fun s p => le_refl _
  | cons a ns ih =>
      intro s p
      exact le_trans (ih _ p) (gcost_relaxNeighbor_le goal cur s a p)

theorem hash_relaxNeighbor_new (goal cur : Nat × Nat) (s : AState)
    (np p : Nat × Nat) (hwf : inGrid s.grid np)
    (hnotin : p ∉ s.open_set_hash)
    (hin : p ∈ (relaxNeighbor goal cur s np).open_set_hash) :
    (getNode (relaxNeighbor goal cur s np).grid p).g_cost <
      (getNode s.grid p).g_cost := by
  simp only [relaxNeighbor] at hin ⊢
  split at hin
  · next hlt =>
      split at hin
      · exact absurd hin hnotin
      · have hp : p = np := by
          simp only [List.mem_append, List.mem_singleton] at hin
          rcases hin with hin | hin
          · exact absurd hin hnotin
          · exact hin
        subst hp
        simp only [if_pos hlt]
        rw [if_neg (by assumption)]
        have hflag : ∀ (m : Node), m.g_cost = (getNode s.grid cur).g_cost +
            (getNode s.grid p).movement_cost →
            (getNode (setNode s.grid p m) p).g_cost <
              (getNode s.grid p).g_cost := by
          intro m hm
          rw [getNode_setNode, if_pos ⟨rfl, hwf⟩, hm]
          exact hlt
        split
        · exact hflag _ rfl
        · refine hflag _ ?_
          simp only [Node.set_open, Node._update_display_color]
          split_ifs <;> rfl
  · exact absurd hin hnotin

theorem inGrid_relaxNeighbor (goal cur : Nat × Nat) (s : AState)
    (np p : Nat × Nat) :
    inGrid (relaxNeighbor goal cur s np).grid p ↔ inGrid s.grid p := by
  simp only [relaxNeighbor]
  split
  · split
    · exact inGrid_setNode _ _ _ _
    · split <;> exact inGrid_setNode _ _ _ _
  · exact Iff.rfl

theorem hash_relaxNeighbor_mono (goal cur : Nat × Nat) (s : AState)
    (np p : Nat × Nat) (hp : p ∈ s.open_set_hash) :
    p ∈ (relaxNeighbor goal cur s np).open_set_hash := by
  simp only [relaxNeighbor]
  split
  · split
    · exact hp
    · simp only [List.mem_append]
      exact Or.inl hp
  · exact hp

/-- C1 as amended: a cell absent from the open set (in particular a
popped, closed cell) is inserted back by a neighbor expansion only when
the expansion strictly lowered its g-cost; with such an improvement the
engine does re-expand it — nothing bars a closed cell from reprocessing. -/
theorem C1_amended (goal cur : Nat × Nat) (ns : List (Nat × Nat)) :
    ∀ (s : AState), (∀ q ∈ ns, inGrid s.grid q) →
      ∀ p : Nat × Nat, p ∉ s.open_set_hash →
        p ∈ (ns.foldl (relaxNeighbor goal cur) s).open_set_hash →
        (getNode (ns.foldl (relaxNeighbor goal cur) s).grid p).g_cost <
          (getNode s.grid p).g_cost := by
  induction ns with
  | nil =>
      intro s hwf p hnotin hin
      exact absurd hin hnotin
  | cons a ns ih =>
      intro s hwf p hnotin hin
      simp only [List.foldl_cons] at hin ⊢
      by_cases hmem : p ∈ (relaxNeighbor goal cur s a).open_set_hash
      · calc (getNode (ns.foldl (relaxNeighbor goal cur)
              (relaxNeighbor goal cur s a)).grid p).g_cost ≤
            (getNode (relaxNeighbor goal cur s a).grid p).g_cost :=
              gcost_foldl_relax_le goal cur ns _ p
          _ < (getNode s.grid p).g_cost :=
              hash_relaxNeighbor_new goal cur s a p
                (hwf a (List.mem_cons_self a ns)) hnotin hmem
      · calc (getNode (ns.foldl (relaxNeighbor goal cur)
              (relaxNeighbor goal cur s a)).grid p).g_cost <
            (getNode (relaxNeighbor goal cur s a).grid p).g_cost := by
              refine ih _ ?_ p hmem hin
              intro q hq
              rw [inGrid_relaxNeighbor]
              exact hwf q (List.mem_cons_of_mem a hq)
          _ ≤ (getNode s.grid p).g_cost :=
              gcost_relaxNeighbor_le goal cur s a p

/-- Witness for C1 as amended: relaxing the single neighbor `(0,1)` from
the start cell inserts it into the open set and strictly lowers its
g-cost from `⊤` to `1`. -/
theorem C1_amended_witness :
    (getNode ([((0 : Nat), (1 : Nat))].foldl
        (relaxNeighbor (1, 1) (0, 0)) c1WitnessState).grid (0, 1)).g_cost <
      (getNode c1WitnessState.grid (0, 1)).g_cost :=
  C1_amended (1, 1) (0, 0) [(0, 1)] c1WitnessState
    (by with_unfolding_all decide) (0, 1)
    (by with_unfolding_all decide) (by with_unfolding_all decide)

/-! C2: what the pop really minimizes. -/

/-- C2 counterexample: on `cxGrid2`, the fifth iteration pops the goal
cell `(0,3)` although the open cell `(1,1)` holds a strictly smaller
current `f_cost` (4 against 5): `(1,1)` was improved while already in
the open set, so its queue entry kept the stale priority 5.5 and the
popped priorities do not reflect the updated f. -/
theorem C2_counterexample :
    (astarStep c2State).state.popped.getLast? = some (0, 3) ∧
    (0, 3) ∈ c2State.open_set_hash ∧
    (1, 1) ∈ c2State.open_set_hash ∧
    (getNode c2State.grid (1, 1)).f_cost <
      (getNode c2State.grid (0, 3)).f_cost := by
  refine ⟨?_, ?_, ?_, ?_⟩ <;> with_unfolding_all decide

theorem entryLE_refl (a : Entry) : entryLE a a :=
  Or.inr ⟨rfl, le_refl _⟩

theorem entryLE_of_entryLT {a b : Entry} (hab : entryLT a b) : entryLE a b := by
  rcases hab with hab | hab
  · exact Or.inl hab
  · exact Or.inr ⟨hab.1, le_of_lt hab.2⟩

theorem entryLE_of_not_entryLT {a b : Entry} (hn : ¬ entryLT b a) :
    entryLE a b := by
  rcases lt_trichotomy a.1 b.1 with hf | hf | hf
  · exact Or.inl hf
  · refine Or.inr ⟨hf, ?_⟩
    by_contra hc
    exact hn (Or.inr ⟨hf.symm, by omega⟩)
  · exact absurd (Or.inl hf) hn

theorem entryLE_trans {a b c : Entry} (hab : entryLE a b) (hbc : entryLE b c) :
    entryLE a c := by
  rcases hab with hab | ⟨hab1, hab2⟩
  · rcases hbc with hbc | ⟨hbc1, hbc2⟩
    · exact Or.inl (lt_trans hab hbc)
    · exact Or.inl (hbc1 ▸ hab)
  · rcases hbc with hbc | ⟨hbc1, hbc2⟩
    · exact Or.inl (hab1 ▸ hbc)
    · exact Or.inr ⟨hab1.trans hbc1, le_trans hab2 hbc2⟩

theorem foldl_pickMin_spec (es : List Entry) :
    ∀ a : Entry,
      (es.foldl pickMin a = a ∨ es.foldl pickMin a ∈ es) ∧
      entryLE (es.foldl pickMin a) a ∧
      ∀ e' ∈ es, entryLE (es.foldl pickMin a) e' := by
  induction es with
  | nil => exact fun a => ⟨Or.inl rfl, entryLE_refl a, by simp⟩
  | cons b es ih =>
      intro a
      simp only [List.foldl_cons, List.mem_cons]
      obtain ⟨hmem, hlea, hall⟩ := ih (pickMin a b)
      have hcase : (pickMin a b = b ∧ entryLE (pickMin a b) a) ∨
          (pickMin a b = a ∧ entryLE (pickMin a b) b) := by
        unfold pickMin
        split
        · next hlt => exact Or.inl ⟨rfl, entryLE_of_entryLT hlt⟩
        · next hlt => exact Or.inr ⟨rfl, entryLE_of_not_entryLT hlt⟩
      refine ⟨?_, ?_, ?_⟩
      · rcases hmem with hmem | hmem
        · rcases hcase with ⟨hpb, -⟩ | ⟨hpa, -⟩
          · exact Or.inr (Or.inl (hmem.trans hpb))
          · exact Or.inl (hmem.trans hpa)
        · exact Or.inr (Or.inr hmem)
      · rcases hcase with ⟨-, hle⟩ | ⟨hpa, -⟩
        · exact entryLE_trans hlea hle
        · exact entryLE_trans hlea (by rw [hpa]; exact entryLE_refl a)
      · intro e' he'
        rcases he' with rfl | he'
        · rcases hcase with ⟨hpb, -⟩ | ⟨-, hle⟩
          · exact entryLE_trans hlea (by rw [hpb]; exact entryLE_refl e')
          · exact entryLE_trans hlea hle
        · exact hall e' he'

theorem popMin_spec (q : List Entry) (e : Entry) (rest : List Entry)
    (hpop : popMin q = some (e, rest)) :
    e ∈ q ∧ ∀ e' ∈ q, entryLE e e' := by
  rcases q with _ | ⟨a, es⟩
  · simp [popMin] at hpop
  · simp only [popMin, Option.some.injEq, Prod.mk.injEq] at hpop
    obtain ⟨he, -⟩ := hpop
    obtain ⟨hmem, hlea, hall⟩ := foldl_pickMin_spec es a
    subst he
    refine ⟨?_, ?_⟩
    · rcases hmem with hmem | hmem
      · rw [hmem]; exact List.mem_cons_self a es
      · exact List.mem_cons_of_mem a hmem
    · intro e' he'
      rcases List.mem_cons.mp he' with rfl | he'
      · exact hlea
      · exact hall e' he'

/-- C2 as amended: the popped entry is minimal in the queue for the
lexicographic order on (priority recorded at insertion time, insertion
count) — ties go to the earliest insertion, and the whole engine is a
pure function of its input, so expansion order is deterministic; but a
relaxation that improves a neighbor already in the open set leaves the
queue untouched (no re-insertion), so the recorded priorities can be
stale and the popped cell need not minimize the current f over the open
set. -/
theorem C2_amended :
    (∀ (q : List Entry) (e : Entry) (rest : List Entry),
      popMin q = some (e, rest) → e ∈ q ∧ ∀ e' ∈ q, entryLE e e') ∧
    (∀ (goal cur : Nat × Nat) (s : AState) (np : Nat × Nat),
      np ∈ s.open_set_hash →
        (relaxNeighbor goal cur s np).open_set = s.open_set ∧
        (relaxNeighbor goal cur s np).open_set_hash = s.open_set_hash ∧
        (relaxNeighbor goal cur s np).count = s.count) := by
  refine ⟨popMin_spec, ?_⟩
  intro goal cur s np hmem
  simp only [relaxNeighbor, hmem, if_true]
  split <;> exact ⟨rfl, rfl, rfl⟩

/-- Witness for C2 as amended: popping a concrete two-entry queue
returns the entry with the smaller priority, which is minimal. -/
theorem C2_amended_witness :
    (((2 : ℚ) : Cost), 2, ((1 : Nat), (1 : Nat))) ∈
        [(((3 : ℚ) : Cost), 1, ((0 : Nat), (0 : Nat))),
         (((2 : ℚ) : Cost), 2, ((1 : Nat), (1 : Nat)))] ∧
      ∀ e' ∈ [(((3 : ℚ) : Cost), 1, ((0 : Nat), (0 : Nat))),
              (((2 : ℚ) : Cost), 2, ((1 : Nat), (1 : Nat)))],
        entryLE (((2 : ℚ) : Cost), 2, ((1 : Nat), (1 : Nat))) e' :=
  C2_amended.1
    [(((3 : ℚ) : Cost), 1, ((0 : Nat), (0 : Nat))),
     (((2 : ℚ) : Cost), 2, ((1 : Nat), (1 : Nat)))]
    (((2 : ℚ) : Cost), 2, ((1 : Nat), (1 : Nat)))
    [(((3 : ℚ) : Cost), 1, ((0 : Nat), (0 : Nat)))]
    (by with_unfolding_all decide)

/-- Witness for C8 at a concrete grid: `(0,1)` is a neighbor of the
corner cell of a fresh 3×3 grid. -/
theorem C8_witness :
    ((0 : Nat), (1 : Nat)) ∈
      ((getNode (make_grid 3) (0, 0)).update_neighbors (make_grid 3)).neighbors :=
  ((C8_update_neighbors (getNode (make_grid 3) (0, 0)) (make_grid 3)).1
    (0, 1)).mpr (by with_unfolding_all decide)

/-! C4 groundwork: cost casts and Manhattan arithmetic. -/

theorem cnat_ne_top (k : Nat) : cnat k ≠ ⊤ :=
  WithTop.coe_ne_top

theorem cnat_lt (a b : Nat) : cnat a < cnat b ↔ a < b := by
  unfold cnat
  rw [WithTop.coe_lt_coe]
  exact_mod_cast Iff.rfl

theorem cnat_inj (a b : Nat) : cnat a = cnat b ↔ a = b := by
  unfold cnat
  rw [WithTop.coe_eq_coe]
  exact_mod_cast Iff.rfl

theorem cnat_add (a b : Nat) : cnat a + cnat b = cnat (a + b) := by
  unfold cnat
  rw [← WithTop.coe_add]
  norm_cast

theorem cnat_lt_top (a : Nat) : cnat a < ⊤ :=
  WithTop.coe_lt_top _

theorem zero_eq_cnat : ((0 : ℚ) : Cost) = cnat 0 := by
  unfold cnat
  norm_cast

theorem h_as_nat (p q : Nat × Nat) :
    h p q = (p.1 - q.1) + (q.1 - p.1) + ((p.2 - q.2) + (q.2 - p.2)) := by
  unfold h
  omega

theorem h_self (p : Nat × Nat) : h p p = 0 := by
  rw [h_as_nat]
  omega

theorem h_comm (p q : Nat × Nat) : h p q = h q p := by
  rw [h_as_nat, h_as_nat]
  omega

theorem h_eq_zero_iff (p q : Nat × Nat) : h p q = 0 ↔ p = q := by
  rw [h_as_nat]
  obtain ⟨p1, p2⟩ := p
  obtain ⟨q1, q2⟩ := q
  simp only [Prod.mk.injEq]
  omega

theorem h_triangle (a b c : Nat × Nat) : h a c ≤ h a b + h b c := by
  rw [h_as_nat, h_as_nat, h_as_nat]
  omega

theorem adjacent_h (p q r : Nat × Nat) (hadj : adjacent p q) :
    h r q = h r p + 1 ∨ h r p = h r q + 1 := by
  rw [h_as_nat, h_as_nat]
  obtain ⟨p1, p2⟩ := p
  obtain ⟨q1, q2⟩ := q
  rcases hadj with ⟨h1, h2 | h2⟩ | ⟨h1, h2 | h2⟩ <;> simp_all <;> omega

theorem adjacent_irrefl (p : Nat × Nat) : ¬ adjacent p p := by
  unfold adjacent
  omega

theorem adjacent_symm (p q : Nat × Nat) (hadj : adjacent p q) :
    adjacent q p := by
  unfold adjacent at hadj ⊢
  omega

theorem stepToward_adjacent (p q : Nat × Nat) (hne : p ≠ q) :
    adjacent p (stepToward p q) := by
  obtain ⟨p1, p2⟩ := p
  obtain ⟨q1, q2⟩ := q
  have hne' : p1 ≠ q1 ∨ (p1 = q1 ∧ p2 ≠ q2) := by
    by_cases hh : p1 = q1
    · right
      exact ⟨hh, fun hc => hne (by rw [hh, hc])⟩
    · left; exact hh
  unfold stepToward adjacent
  rcases hne' with hh | ⟨hh1, hh2⟩ <;> split_ifs <;> simp_all <;> omega

theorem stepToward_h (p q : Nat × Nat) (hne : p ≠ q) :
    h (stepToward p q) q + 1 = h p q := by
  obtain ⟨p1, p2⟩ := p
  obtain ⟨q1, q2⟩ := q
  have hne' : p1 ≠ q1 ∨ (p1 = q1 ∧ p2 ≠ q2) := by
    by_cases hh : p1 = q1
    · right
      exact ⟨hh, fun hc => hne (by rw [hh, hc])⟩
    · left; exact hh
  unfold stepToward
  rcases hne' with hh | ⟨hh1, hh2⟩ <;> split_ifs <;>
    simp_all [h_as_nat] <;> omega

theorem stepToward_inb (R : Nat) (p q : Nat × Nat) (hp : inb R p)
    (hq : inb R q) : inb R (stepToward p q) := by
  obtain ⟨p1, p2⟩ := p
  obtain ⟨q1, q2⟩ := q
  unfold inb at hp hq ⊢
  unfold stepToward
  split_ifs <;> dsimp only <;> omega

theorem classD_pred (R : Nat) (s e p : Nat × Nat) (hcd : classD R s e p)
    (hs : inb R s) (hne : p ≠ s) :
    classD R s e (stepToward p s) ∧ h s (stepToward p s) + 1 = h s p := by
  obtain ⟨hinb, hsum⟩ := hcd
  have hadj := stepToward_adjacent p s hne
  have hstep := stepToward_h p s hne
  have hin := stepToward_inb R p s hinb hs
  have hh1 : h s (stepToward p s) + 1 = h s p := by
    rw [h_comm s (stepToward p s), h_comm s p]
    exact hstep
  refine ⟨⟨hin, ?_⟩, hh1⟩
  have htr1 : h s e ≤ h s (stepToward p s) + h (stepToward p s) e :=
    h_triangle s (stepToward p s) e
  have htr2 : h (stepToward p s) e ≤ h (stepToward p s) p + h p e :=
    h_triangle (stepToward p s) p e
  have hback : h (stepToward p s) p = 1 := by
    rcases adjacent_h p (stepToward p s) (stepToward p s) hadj with hc | hc <;>
      rw [h_self] at hc <;>
      [skip; omega]
    rw [h_comm]
    omega
  omega

theorem classD_goal (R : Nat) (s e p : Nat × Nat) (hcd : classD R s e p)
    (hd : h s p = h s e) : p = e := by
  obtain ⟨-, hsum⟩ := hcd
  rw [← h_eq_zero_iff p e]
  omega

theorem f_lower_bound (s e p : Nat × Nat) : h s e ≤ h s p + h p e :=
  h_triangle s p e

/-! C4 groundwork: static facts about the uniform all-Grass board. -/

theorem length_make_grid (R : Nat) : (make_grid R).length = R := by
  simp [make_grid]

theorem row_make_grid (R i : Nat) (hi : i < R) :
    (make_grid R).getD i [] = (List.range R).map (fun j => Node.init i j R) := by
  unfold make_grid
  rw [List.getD_eq_getElem?_getD, List.getElem?_map, List.getElem?_range hi]
  simp

theorem getNode_make_grid (R : Nat) (p : Nat × Nat) (hp : inb R p) :
    getNode (make_grid R) p = Node.init p.1 p.2 R := by
  unfold getNode
  rw [row_make_grid R p.1 hp.1, List.getD_eq_getElem?_getD, List.getElem?_map,
    List.getElem?_range hp.2]
  simp

theorem Node_init_movement_cost (r c t : Nat) :
    (Node.init r c t).movement_cost = cnat 1 := by
  with_unfolding_all rfl

theorem Node_init_g_cost (r c t : Nat) : (Node.init r c t).g_cost = ⊤ := rfl

theorem make_special_movement_cost (n : Node) (b : Brush) :
    (n.make_special_node b).movement_cost = n.movement_cost := by
  simp only [Node.make_special_node, Node._reset_astar_states,
    Node._update_display_color]
  split_ifs <;> rfl

theorem make_special_row (n : Node) (b : Brush) :
    (n.make_special_node b).row = n.row ∧
    (n.make_special_node b).col = n.col ∧
    (n.make_special_node b).total_rows = n.total_rows ∧
    (n.make_special_node b).neighbors = n.neighbors := by
  simp only [Node.make_special_node, Node._reset_astar_states,
    Node._update_display_color]
  split_ifs <;> exact ⟨rfl, rfl, rfl, rfl⟩

theorem make_special_g_START (n : Node) :
    (n.make_special_node Brush.START).g_cost = cnat 0 := by
  simp only [Node.make_special_node, Node._reset_astar_states,
    Node._update_display_color]
  split_ifs <;> first
    | rfl
    | (rw [← zero_eq_cnat]; rfl)
    | (exact False.elim (by assumption))
    | simp_all

theorem make_special_g_END (n : Node) :
    (n.make_special_node Brush.END).g_cost = ⊤ := by
  simp only [Node.make_special_node, Node._reset_astar_states,
    Node._update_display_color]
  split_ifs <;> first
    | rfl
    | (exact False.elim (by assumption))
    | simp_all

theorem update_neighbors_fields (n : Node) (g : Grid) :
    (n.update_neighbors g).row = n.row ∧
    (n.update_neighbors g).col = n.col ∧
    (n.update_neighbors g).total_rows = n.total_rows ∧
    (n.update_neighbors g).movement_cost = n.movement_cost ∧
    (n.update_neighbors g).g_cost = n.g_cost :=
  ⟨rfl, rfl, rfl, rfl, rfl⟩

theorem length_updateAllNeighbors (g : Grid) :
    (updateAllNeighbors g).length = g.length := by
  simp [updateAllNeighbors]

theorem row_updateAllNeighbors (g : Grid) (i : Nat) (hi : i < g.length) :
    (updateAllNeighbors g).getD i [] =
      ((g.getD i []).map (fun n => n.update_neighbors g)) := by
  unfold updateAllNeighbors
  rw [List.getD_eq_getElem?_getD, List.getElem?_map,
    List.getElem?_eq_getElem hi]
  simp [List.getD_eq_getElem?_getD, List.getElem?_eq_getElem hi]

theorem getNode_updateAllNeighbors (g : Grid) (p : Nat × Nat)
    (hp : inGrid g p) :
    getNode (updateAllNeighbors g) p = (getNode g p).update_neighbors g := by
  obtain ⟨h1, h2⟩ := hp
  rw [List.getD_eq_getElem?_getD] at h2
  unfold getNode
  rw [row_updateAllNeighbors g p.1 h1]
  simp only [List.getD_eq_getElem?_getD, List.getElem?_map]
  rw [List.getElem?_eq_getElem h2]
  simp

theorem rowlen_setNode (g : Grid) (q : Nat × Nat) (n : Node) (i : Nat) :
    ((setNode g q n).getD i []).length = (g.getD i []).length := by
  unfold setNode
  rcases Decidable.eq_or_ne i q.1 with rfl | hi
  · by_cases hq : q.1 < g.length
    · rw [List.getD_eq_getElem?_getD, List.getElem?_set_self hq]
      simp [List.getD_eq_getElem?_getD]
    · rw [List.set_eq_of_length_le (Nat.le_of_not_lt hq)]
  · rw [List.getD_eq_getElem?_getD, List.getElem?_set_ne (Ne.symm hi),
      ← List.getD_eq_getElem?_getD]

/-- The grid handed to the A* run by `uniformGrid`, before neighbor
lists are attached. -/
theorem placeSpecial_facts (R : Nat) (s e : Nat × Nat) (hs : inb R s)
    (he : inb R e) (hne : s ≠ e) :
    (placeSpecial (make_grid R) s e).length = R ∧
    (∀ i, i < R → ((placeSpecial (make_grid R) s e).getD i []).length = R) ∧
    (∀ p, inb R p →
      (getNode (placeSpecial (make_grid R) s e) p).movement_cost = cnat 1 ∧
      (getNode (placeSpecial (make_grid R) s e) p).row = p.1 ∧
      (getNode (placeSpecial (make_grid R) s e) p).col = p.2 ∧
      (getNode (placeSpecial (make_grid R) s e) p).total_rows = R ∧
      (getNode (placeSpecial (make_grid R) s e) p).g_cost =
        (if p = s then cnat 0 else ⊤)) := by
  have hrow : ∀ i, i < R → ((make_grid R).getD i []).length = R := by
    intro i hi
    rw [row_make_grid R i hi]
    simp
  have hinG : ∀ p, inb R p → inGrid (make_grid R) p := by
    intro p hp
    exact ⟨by rw [length_make_grid]; exact hp.1, by rw [hrow p.1 hp.1]; exact hp.2⟩
  refine ⟨?_, ?_, ?_⟩
  · unfold placeSpecial updNode
    rw [length_setNode, length_setNode, length_make_grid]
  · intro i hi
    unfold placeSpecial updNode
    rw [rowlen_setNode, rowlen_setNode]
    exact hrow i hi
  · intro p hp
    have hinG2 : inGrid (updNode (make_grid R) s
        (fun n => n.make_special_node Brush.START)) e := by
      unfold updNode
      rw [inGrid_setNode]
      exact hinG e he
    rcases Decidable.eq_or_ne p e with hpe | hpe
    · rw [hpe]
      have he1 : getNode (placeSpecial (make_grid R) s e) e =
          (getNode (updNode (make_grid R) s
            (fun n => n.make_special_node Brush.START)) e).make_special_node
              Brush.END := by
        unfold placeSpecial
        rw [getNode_updNode, if_pos ⟨rfl, hinG2⟩]
      have he2 : getNode (updNode (make_grid R) s
          (fun n => n.make_special_node Brush.START)) e =
          Node.init e.1 e.2 R := by
        rw [getNode_updNode, if_neg (fun hc => hne hc.1.symm),
          getNode_make_grid R e he]
      rw [he1, he2, if_neg (fun hc => hne hc.symm)]
      refine ⟨?_, ?_, ?_, ?_, ?_⟩
      · rw [make_special_movement_cost]
        exact Node_init_movement_cost _ _ _
      · rw [(make_special_row _ _).1]
        rfl
      · rw [(make_special_row _ _).2.1]
        rfl
      · rw [(make_special_row _ _).2.2.1]
        rfl
      · exact make_special_g_END _
    · have hp1 : getNode (placeSpecial (make_grid R) s e) p =
          getNode (updNode (make_grid R) s
            (fun n => n.make_special_node Brush.START)) p := by
        unfold placeSpecial
        rw [getNode_updNode, if_neg (fun hc => hpe hc.1)]
      rcases Decidable.eq_or_ne p s with hps | hps
      · rw [hps] at hp1
        rw [hps, hp1, getNode_updNode, if_pos ⟨rfl, hinG s hs⟩,
          getNode_make_grid R s hs, if_pos rfl]
        refine ⟨?_, ?_, ?_, ?_, ?_⟩
        · rw [make_special_movement_cost]
          exact Node_init_movement_cost _ _ _
        · rw [(make_special_row _ _).1]
          rfl
        · rw [(make_special_row _ _).2.1]
          rfl
        · rw [(make_special_row _ _).2.2.1]
          rfl
        · exact make_special_g_START _
      · rw [hp1, getNode_updNode, if_neg (fun hc => hps hc.1),
          getNode_make_grid R p hp, if_neg hps]
        exact ⟨Node_init_movement_cost _ _ _, rfl, rfl, rfl, rfl⟩

/-- Full static description of `uniformGrid R s e` as seen by the A*
engine. -/
theorem uniformGrid_facts (R : Nat) (s e : Nat × Nat) (hs : inb R s)
    (he : inb R e) (hne : s ≠ e) :
    staticOK R (uniformGrid R s e) ∧
    (∀ p, inb R p → (getNode (uniformGrid R s e) p).g_cost =
      (if p = s then cnat 0 else ⊤)) := by
  obtain ⟨hlen, hrow, hcell⟩ := placeSpecial_facts R s e hs he hne
  have hinG : ∀ p, inb R p → inGrid (placeSpecial (make_grid R) s e) p := by
    intro p hp
    exact ⟨by rw [hlen]; exact hp.1, by rw [hrow p.1 hp.1]; exact hp.2⟩
  have haccess : ∀ p, inb R p → getNode (uniformGrid R s e) p =
      (getNode (placeSpecial (make_grid R) s e) p).update_neighbors
        (placeSpecial (make_grid R) s e) := by
    intro p hp
    exact getNode_updateAllNeighbors _ p (hinG p hp)
  constructor
  · refine ⟨?_, ?_, ?_⟩
    · unfold uniformGrid
      rw [length_updateAllNeighbors, hlen]
    · intro i hi
      unfold uniformGrid
      rw [row_updateAllNeighbors _ i (by rw [hlen]; exact hi)]
      rw [List.length_map]
      exact hrow i hi
    · intro p hp
      obtain ⟨hmc, hr, hc, ht, -⟩ := hcell p hp
      rw [haccess p hp]
      refine ⟨?_, ?_⟩
      · rw [(update_neighbors_fields _ _).2.2.2.1]
        exact hmc
      · intro q
        rw [mem_update_neighbors]
        rw [hr, hc, ht]
        constructor
        · rintro ⟨hadj, hq1, hq2, -⟩
          refine ⟨?_, hq1, hq2⟩
          unfold adjacent
          omega
        · rintro ⟨hadj, hq1, hq2⟩
          refine ⟨?_, hq1, hq2, ?_⟩
          · unfold adjacent at hadj
            omega
          · rw [(hcell q ⟨hq1, hq2⟩).1]
            exact cnat_ne_top 1
  · intro p hp
    rw [haccess p hp, (update_neighbors_fields _ _).2.2.2.2]
    exact (hcell p hp).2.2.2.2

/-! C4 groundwork: the A* step on a uniform board. -/

theorem popMin_erase (q : List Entry) (en : Entry) (rest : List Entry)
    (hpop : popMin q = some (en, rest)) : rest = q.erase en := by
  rcases q with _ | ⟨a, es⟩
  · simp [popMin] at hpop
  · simp only [popMin, Option.some.injEq, Prod.mk.injEq] at hpop
    rw [← hpop.1]
    exact hpop.2.symm

theorem set_open_fields (n : Node) :
    n.set_open.g_cost = n.g_cost ∧ n.set_open.f_cost = n.f_cost ∧
    n.set_open.movement_cost = n.movement_cost ∧
    n.set_open.neighbors = n.neighbors := by
  simp only [Node.set_open, Node._update_display_color]
  split_ifs <;> exact ⟨rfl, rfl, rfl, rfl⟩

theorem set_closed_fields (n : Node) :
    n.set_closed.g_cost = n.g_cost ∧
    n.set_closed.movement_cost = n.movement_cost ∧
    n.set_closed.neighbors = n.neighbors := by
  simp only [Node.set_closed, Node._update_display_color]
  split_ifs <;> exact ⟨rfl, rfl, rfl⟩

theorem inGrid_iff_inb (R : Nat) (g : Grid) (hst : staticOK R g)
    (p : Nat × Nat) : inGrid g p ↔ inb R p := by
  unfold inGrid inb
  rw [hst.1]
  constructor
  · rintro ⟨h1, h2⟩
    refine ⟨h1, ?_⟩
    rw [hst.2.1 p.1 h1] at h2
    exact h2
  · rintro ⟨h1, h2⟩
    refine ⟨h1, ?_⟩
    rw [hst.2.1 p.1 h1]
    exact h2

theorem staticOK_setNode (R : Nat) (g : Grid) (q : Nat × Nat) (n : Node)
    (hst : staticOK R g)
    (hmc : n.movement_cost = (getNode g q).movement_cost)
    (hnb : n.neighbors = (getNode g q).neighbors) :
    staticOK R (setNode g q n) := by
  obtain ⟨h1, h2, h3⟩ := hst
  refine ⟨by rw [length_setNode]; exact h1, ?_, ?_⟩
  · intro i hi
    rw [rowlen_setNode]
    exact h2 i hi
  · intro p hp
    rw [getNode_setNode]
    split
    · next hc =>
        rw [← hc.1] at hmc hnb
        rw [hmc, hnb]
        exact h3 p hp
    · exact h3 p hp

theorem relax_step_uniform (R : Nat) (s e pstar : Nat × Nat) (t : AState)
    (hst : staticOK R t.grid)
    (hg : (getNode t.grid pstar).g_cost = cnat (h s pstar))
    (q : Nat × Nat) (hadj : adjacent pstar q) (hq : inb R q)
    (hgq : (getNode t.grid q).g_cost = ⊤ ∨
      (getNode t.grid q).g_cost = cnat (h s q))
    (hundisc : (getNode t.grid q).g_cost = ⊤ →
      (h s q = h s pstar + 1 ∧ q ∉ t.open_set_hash)) :
    ((getNode t.grid q).g_cost ≠ ⊤ ∧ relaxNeighbor e pstar t q = t) ∨
    ((getNode t.grid q).g_cost = ⊤ ∧ h s q = h s pstar + 1 ∧
      (relaxNeighbor e pstar t q).open_set =
        t.open_set ++ [(cnat (h s q + h q e), t.count + 1, q)] ∧
      (relaxNeighbor e pstar t q).open_set_hash = t.open_set_hash ++ [q] ∧
      (relaxNeighbor e pstar t q).count = t.count + 1 ∧
      (relaxNeighbor e pstar t q).popped = t.popped ∧
      (relaxNeighbor e pstar t q).start = t.start ∧
      (relaxNeighbor e pstar t q).goal = t.goal ∧
      staticOK R (relaxNeighbor e pstar t q).grid ∧
      (∀ p : Nat × Nat, p ≠ q →
        (getNode (relaxNeighbor e pstar t q).grid p).g_cost =
          (getNode t.grid p).g_cost) ∧
      (getNode (relaxNeighbor e pstar t q).grid q).g_cost = cnat (h s q)) := by
  have hmc : (getNode t.grid q).movement_cost = cnat 1 := ((hst.2.2 q hq).1)
  have htempval : (getNode t.grid pstar).g_cost +
      (getNode t.grid q).movement_cost = cnat (h s pstar + 1) := by
    rw [hg, hmc, cnat_add]
  rcases hgq with hgq | hgq
  · -- undiscovered: the push branch fires
    obtain ⟨hdist, hnotin⟩ := hundisc hgq
    right
    have hlt : (getNode t.grid pstar).g_cost +
        (getNode t.grid q).movement_cost < (getNode t.grid q).g_cost := by
      rw [htempval, hgq]
      exact cnat_lt_top _
    have hfval : (getNode t.grid pstar).g_cost +
        (getNode t.grid q).movement_cost + ((h q e : ℚ) : Cost) =
        cnat (h s q + h q e) := by
      rw [htempval]
      show cnat (h s pstar + 1) + cnat (h q e) = _
      rw [cnat_add, hdist]
    have hinGq : inGrid t.grid q := (inGrid_iff_inb R t.grid hst q).mpr hq
    refine ⟨hgq, hdist, ?_, ?_, ?_, ?_, ?_, ?_, ?_, ?_, ?_⟩
    · -- open_set
      simp only [relaxNeighbor, if_pos hlt, if_neg hnotin]
      split
      · simp only [List.append_cancel_left_eq, List.cons.injEq, and_true,
          Prod.mk.injEq]
        exact hfval
      · simp only [List.append_cancel_left_eq, List.cons.injEq, and_true,
          Prod.mk.injEq]
        rw [(set_open_fields _).2.1]
        exact hfval
    · simp only [relaxNeighbor, if_pos hlt, if_neg hnotin]
    · simp only [relaxNeighbor, if_pos hlt, if_neg hnotin]
    · simp only [relaxNeighbor, if_pos hlt, if_neg hnotin]
    · simp only [relaxNeighbor, if_pos hlt, if_neg hnotin]
    · simp only [relaxNeighbor, if_pos hlt, if_neg hnotin]
    · -- staticOK
      simp only [relaxNeighbor, if_pos hlt, if_neg hnotin]
      split
      · refine staticOK_setNode R t.grid q _ hst ?_ ?_ <;> rfl
      · refine staticOK_setNode R t.grid q _ hst ?_ ?_
        · rw [(set_open_fields _).2.2.1]
        · rw [(set_open_fields _).2.2.2]
    · -- other cells unchanged
      intro p hpq
      simp only [relaxNeighbor, if_pos hlt, if_neg hnotin]
      split <;>
        · show (getNode (setNode t.grid q _) p).g_cost = _
          rw [getNode_setNode_ne t.grid q p _ hpq]
    · -- q now optimal
      simp only [relaxNeighbor, if_pos hlt, if_neg hnotin]
      split
      · show (getNode (setNode t.grid q _) q).g_cost = _
        rw [getNode_setNode_self t.grid q _ hinGq, htempval, hdist]
      · show (getNode (setNode t.grid q _) q).g_cost = _
        rw [getNode_setNode_self t.grid q _ hinGq,
          (set_open_fields _).1, htempval, hdist]
  · -- already discovered at its optimal value: no change
    left
    have hle : h s q ≤ h s pstar + 1 := by
      rcases adjacent_h pstar q s hadj with hc | hc <;> omega
    have hnlt : ¬ ((getNode t.grid pstar).g_cost +
        (getNode t.grid q).movement_cost < (getNode t.grid q).g_cost) := by
      rw [htempval, hgq, cnat_lt]
      omega
    refine ⟨by rw [hgq]; exact cnat_ne_top _, ?_⟩
    simp only [relaxNeighbor, if_neg hnlt]

theorem relax_fold_spec (R : Nat) (s e pstar : Nat × Nat) :
    ∀ (ns : List (Nat × Nat)) (t : AState),
      staticOK R t.grid →
      (getNode t.grid pstar).g_cost = cnat (h s pstar) →
      (∀ q ∈ ns, adjacent pstar q ∧ inb R q) →
      pstar ∉ ns →
      (∀ q ∈ ns, (getNode t.grid q).g_cost = ⊤ →
        (h s q = h s pstar + 1 ∧ q ∉ t.open_set_hash)) →
      (∀ q ∈ ns, (getNode t.grid q).g_cost = ⊤ ∨
        (getNode t.grid q).g_cost = cnat (h s q)) →
      ∃ ents : List Entry,
        (ns.foldl (relaxNeighbor e pstar) t).open_set = t.open_set ++ ents ∧
        (ns.foldl (relaxNeighbor e pstar) t).open_set_hash =
          t.open_set_hash ++ ents.map (fun en => en.2.2) ∧
        (ns.foldl (relaxNeighbor e pstar) t).count = t.count + ents.length ∧
        (ns.foldl (relaxNeighbor e pstar) t).popped = t.popped ∧
        (ns.foldl (relaxNeighbor e pstar) t).start = t.start ∧
        (ns.foldl (relaxNeighbor e pstar) t).goal = t.goal ∧
        staticOK R (ns.foldl (relaxNeighbor e pstar) t).grid ∧
        (∀ en ∈ ents, en.2.2 ∈ ns ∧ adjacent pstar en.2.2 ∧ inb R en.2.2 ∧
          (getNode t.grid en.2.2).g_cost = ⊤ ∧
          h s en.2.2 = h s pstar + 1 ∧
          en.1 = cnat (h s en.2.2 + h en.2.2 e) ∧
          t.count < en.2.1 ∧ en.2.1 ≤ t.count + ents.length) ∧
        (ents.map (fun en => en.2.2)).Nodup ∧
        (∀ p : Nat × Nat, p ∉ ents.map (fun en => en.2.2) →
          (getNode (ns.foldl (relaxNeighbor e pstar) t).grid p).g_cost =
            (getNode t.grid p).g_cost) ∧
        (∀ q ∈ ents.map (fun en => en.2.2),
          (getNode (ns.foldl (relaxNeighbor e pstar) t).grid q).g_cost =
            cnat (h s q)) ∧
        (∀ q ∈ ns,
          (getNode (ns.foldl (relaxNeighbor e pstar) t).grid q).g_cost ≠ ⊤) := by
  intro ns
  induction ns with
  | nil =>
      intro t hst hg _ _ _ _
      exact ⟨[], by simp, by simp, by simp, rfl, rfl, rfl, hst,
        by simp, by simp, by simp, by simp, by simp⟩
  | cons q ns ih =>
      intro t hst hg hadj hpn hundisc hgopt
      have hq := hadj q (List.mem_cons_self q ns)
      have hpq : pstar ≠ q := fun hc => hpn (hc ▸ List.mem_cons_self q ns)
      have hstep := relax_step_uniform R s e pstar t hst hg q hq.1 hq.2
        (hgopt q (List.mem_cons_self q ns))
        (hundisc q (List.mem_cons_self q ns))
      simp only [List.foldl_cons]
      rcases hstep with ⟨hdisc, hunch⟩ | ⟨hgq, hdist, hopen, hhash, hcount,
          hpop, hstart, hgoal, hstat, hother, hqopt⟩
      · rw [hunch]
        obtain ⟨ents, a1, a2, a3, a4, a5, a6, a7, a8, a9, a10, a11, a12⟩ :=
          ih t hst hg (fun x hx => hadj x (List.mem_cons_of_mem q hx))
            (fun hc => hpn (List.mem_cons_of_mem q hc))
            (fun x hx => hundisc x (List.mem_cons_of_mem q hx))
            (fun x hx => hgopt x (List.mem_cons_of_mem q hx))
        refine ⟨ents, a1, a2, a3, a4, a5, a6, a7, ?_, a9, a10, a11, ?_⟩
        · intro en hen
          obtain ⟨p1, rest⟩ := a8 en hen
          exact ⟨List.mem_cons_of_mem q p1, rest⟩
        · intro x hx
          rcases List.mem_cons.mp hx with rfl | hx
          · by_cases hxe : x ∈ ents.map (fun en => en.2.2)
            · rw [a11 x hxe]
              exact cnat_ne_top _
            · rw [a10 x hxe]
              exact hdisc
          · exact a12 x hx
      · -- q was pushed
        set t' := relaxNeighbor e pstar t q with ht'
        have hgp' : (getNode t'.grid pstar).g_cost = cnat (h s pstar) := by
          rw [hother pstar hpq]
          exact hg
        obtain ⟨ents', e1, e2, e3, e4, e5, e6, e7, e8, e9, e10, e11, e12⟩ :=
          ih t' hstat hgp'
            (fun x hx => hadj x (List.mem_cons_of_mem q hx))
            (fun hc => hpn (List.mem_cons_of_mem q hc))
            (fun x hx hgx => by
              have hxq : x ≠ q := by
                intro hc
                rw [hc, hqopt] at hgx
                exact cnat_ne_top _ hgx
              rw [hother x hxq] at hgx
              obtain ⟨hd1, hd2⟩ := hundisc x (List.mem_cons_of_mem q hx) hgx
              refine ⟨hd1, ?_⟩
              rw [hhash]
              simp only [List.mem_append, List.mem_singleton]
              rintro (hc | hc)
              · exact hd2 hc
              · exact hxq hc)
            (fun x hx => by
              rcases Decidable.eq_or_ne x q with rfl | hxq
              · right
                exact hqopt
              · rw [hother x hxq]
                exact hgopt x (List.mem_cons_of_mem q hx))
        refine ⟨(cnat (h s q + h q e), t.count + 1, q) :: ents',
          ?_, ?_, ?_, ?_, ?_, ?_, e7, ?_, ?_, ?_, ?_, ?_⟩
        · rw [e1, hopen]
          simp
        · rw [e2, hhash]
          simp
        · rw [e3, hcount]
          simp only [List.length_cons]
          omega
        · rw [e4, hpop]
        · rw [e5, hstart]
        · rw [e6, hgoal]
        · -- entry properties
          intro en hen
          rcases List.mem_cons.mp hen with rfl | hen
          · refine ⟨List.mem_cons_self q ns, hq.1, hq.2, hgq, hdist, rfl,
              Nat.lt_succ_self _, ?_⟩
            show t.count + 1 ≤ t.count + (ents'.length + 1)
            omega
          · obtain ⟨p1, p2, p3, p4, p5, p6, p7, p8⟩ := e8 en hen
            have henq : en.2.2 ≠ q := by
              intro hc
              rw [hc, hqopt] at p4
              exact cnat_ne_top _ p4
            refine ⟨List.mem_cons_of_mem q p1, p2, p3, ?_, p5, p6, ?_, ?_⟩
            · rw [hother en.2.2 henq] at p4
              exact p4
            · rw [hcount] at p7
              omega
            · rw [hcount] at p8
              simp only [List.length_cons]
              omega
        · -- nodup of the pushed coordinates
          simp only [List.map_cons, List.nodup_cons]
          refine ⟨?_, e9⟩
          intro hc
          simp only [List.mem_map] at hc
          obtain ⟨en, hen, henq⟩ := hc
          have := (e8 en hen).2.2.2.1
          rw [henq, hqopt] at this
          exact cnat_ne_top _ this
        · -- untouched cells
          intro p hp
          simp only [List.map_cons, List.mem_cons] at hp
          push_neg at hp
          rw [e10 p (by simpa using hp.2), hother p hp.1]
        · -- newly discovered cells are optimal
          intro x hx
          simp only [List.map_cons, List.mem_cons] at hx
          rcases hx with rfl | hx
          · have hxnot : x ∉ ents'.map (fun en => en.2.2) := by
              intro hc
              simp only [List.mem_map] at hc
              obtain ⟨en, hen, henq⟩ := hc
              have := (e8 en hen).2.2.2.1
              rw [henq, hqopt] at this
              exact cnat_ne_top _ this
            rw [e10 x hxnot]
            exact hqopt
          · exact e11 x (by simpa using hx)
        · -- every neighbor is discovered after the fold
          intro x hx
          rcases List.mem_cons.mp hx with rfl | hx
          · have hxnot : x ∉ ents'.map (fun en => en.2.2) := by
              intro hc
              simp only [List.mem_map] at hc
              obtain ⟨en, hen, henq⟩ := hc
              have := (e8 en hen).2.2.2.1
              rw [henq, hqopt] at this
              exact cnat_ne_top _ this
            rw [e10 x hxnot, hqopt]
            exact cnat_ne_top _
          · exact e12 x hx

/-! C4: the effect of the pop and close steps on the grid, and the
reduction of `astarStep` to the three named stages. -/

theorem cnat_le (a b : Nat) : cnat a ≤ cnat b ↔ a ≤ b := by
  unfold cnat
  rw [WithTop.coe_le_coe]
  exact_mod_cast Iff.rfl

theorem getNode_clearOpen_g (g : Grid) (p q : Nat × Nat) :
    (getNode (updNode g p (fun n => { n with is_in_open_set := false })) q).g_cost
      = (getNode g q).g_cost := by
  rw [getNode_updNode]
  split
  · next hc => rw [hc.1]
  · rfl

theorem getNode_updNode_set_closed_g (g : Grid) (p q : Nat × Nat) :
    (getNode (updNode g p Node.set_closed) q).g_cost = (getNode g q).g_cost := by
  rw [getNode_updNode]
  split
  · next hc => rw [(set_closed_fields _).1, hc.1]
  · rfl

theorem getNode_updNode_start_g (g : Grid) (p q : Nat × Nat) :
    (getNode (updNode g p (fun n => n.make_special_node Brush.START)) q).g_cost =
      if q = p ∧ inGrid g p then cnat 0 else (getNode g q).g_cost := by
  rw [getNode_updNode]
  split
  · exact make_special_g_START _
  · rfl

theorem closeState_fields (pos : Nat × Nat) (t : AState) :
    (closeState pos t).open_set = t.open_set ∧
    (closeState pos t).open_set_hash = t.open_set_hash ∧
    (closeState pos t).count = t.count ∧
    (closeState pos t).popped = t.popped ∧
    (closeState pos t).start = t.start ∧
    (closeState pos t).goal = t.goal := by
  unfold closeState
  split <;> exact ⟨rfl, rfl, rfl, rfl, rfl, rfl⟩

theorem closeState_g (pos : Nat × Nat) (t : AState) (s0 : Nat × Nat)
    (hstart : t.start = s0)
    (hgpos : (getNode t.grid pos).g_cost = cnat (h s0 pos)) (q : Nat × Nat) :
    (getNode (closeState pos t).grid q).g_cost = (getNode t.grid q).g_cost := by
  unfold closeState
  split
  · exact getNode_updNode_set_closed_g t.grid pos q
  · next hc =>
      have hpeq : pos = t.start := not_ne_iff.mp hc
      show (getNode (updNode t.grid pos
        (fun n => n.make_special_node Brush.START)) q).g_cost =
          (getNode t.grid q).g_cost
      rw [getNode_updNode_start_g]
      split
      · next hq => rw [hq.1, hgpos, hpeq, hstart, h_self]
      · rfl

theorem staticOK_closeState (R : Nat) (pos : Nat × Nat) (t : AState)
    (hst : staticOK R t.grid) : staticOK R (closeState pos t).grid := by
  unfold closeState
  split
  · exact staticOK_setNode R t.grid pos _ hst
      (set_closed_fields _).2.1 (set_closed_fields _).2.2
  · exact staticOK_setNode R t.grid pos _ hst
      (make_special_movement_cost _ _) (make_special_row _ _).2.2.2

theorem nodup_append_disjoint {α : Type} (l1 l2 : List α)
    (h1 : l1.Nodup) (h2 : l2.Nodup) (hd : ∀ x ∈ l2, x ∉ l1) :
    (l1 ++ l2).Nodup := by
  rw [List.nodup_append]
  exact ⟨h1, h2, fun x hx hx2 => hd x hx2 hx⟩

theorem astarStep_found_eq (st : AState) (en : Entry) (rest : List Entry)
    (hpop : popMin st.open_set = some (en, rest)) (hgoal : en.2.2 = st.goal) :
    astarStep st = StepResult.found (popState st en rest) := by
  simp only [astarStep, hpop]
  split
  · rfl
  · next hc => exact absurd hgoal hc

theorem astarStep_next_eq (st : AState) (en : Entry) (rest : List Entry)
    (hpop : popMin st.open_set = some (en, rest)) (hgoal : en.2.2 ≠ st.goal) :
    astarStep st = StepResult.next
      (closeState en.2.2 (relaxedState st.goal en.2.2 (popState st en rest))) := by
  simp only [astarStep, hpop]
  split
  · next hc => exact absurd hc hgoal
  · rfl

theorem relaxedState_spec (R : Nat) (s e pstar : Nat × Nat) (t : AState)
    (hst : staticOK R t.grid)
    (hg : (getNode t.grid pstar).g_cost = cnat (h s pstar))
    (hadj : ∀ q ∈ (getNode t.grid pstar).neighbors, adjacent pstar q ∧ inb R q)
    (hpn : pstar ∉ (getNode t.grid pstar).neighbors)
    (hundisc : ∀ q ∈ (getNode t.grid pstar).neighbors,
      (getNode t.grid q).g_cost = ⊤ →
        (h s q = h s pstar + 1 ∧ q ∉ t.open_set_hash))
    (hgopt : ∀ q ∈ (getNode t.grid pstar).neighbors,
      (getNode t.grid q).g_cost = ⊤ ∨
        (getNode t.grid q).g_cost = cnat (h s q)) :
    ∃ ents : List Entry,
      (relaxedState e pstar t).open_set = t.open_set ++ ents ∧
      (relaxedState e pstar t).open_set_hash =
        t.open_set_hash ++ ents.map (fun en => en.2.2) ∧
      (relaxedState e pstar t).count = t.count + ents.length ∧
      (relaxedState e pstar t).popped = t.popped ∧
      (relaxedState e pstar t).start = t.start ∧
      (relaxedState e pstar t).goal = t.goal ∧
      staticOK R (relaxedState e pstar t).grid ∧
      (∀ en ∈ ents, en.2.2 ∈ (getNode t.grid pstar).neighbors ∧
        adjacent pstar en.2.2 ∧ inb R en.2.2 ∧
        (getNode t.grid en.2.2).g_cost = ⊤ ∧
        h s en.2.2 = h s pstar + 1 ∧
        en.1 = cnat (h s en.2.2 + h en.2.2 e) ∧
        t.count < en.2.1 ∧ en.2.1 ≤ t.count + ents.length) ∧
      (ents.map (fun en => en.2.2)).Nodup ∧
      (∀ p : Nat × Nat, p ∉ ents.map (fun en => en.2.2) →
        (getNode (relaxedState e pstar t).grid p).g_cost =
          (getNode t.grid p).g_cost) ∧
      (∀ q ∈ ents.map (fun en => en.2.2),
        (getNode (relaxedState e pstar t).grid q).g_cost = cnat (h s q)) ∧
      (∀ q ∈ (getNode t.grid pstar).neighbors,
        (getNode (relaxedState e pstar t).grid q).g_cost ≠ ⊤) :=
  relax_fold_spec R s e pstar (getNode t.grid pstar).neighbors t hst hg hadj hpn
    hundisc hgopt

theorem astarStep_uniform (R : Nat) (s e : Nat × Nat) (hs : inb R s)
    (he : inb R e) (hne : s ≠ e) (st : AState)
    (hinv : UInv R s e st) (halive : e ∉ st.popped) :
    (∃ st', astarStep st = StepResult.found st' ∧
      (getNode st'.grid e).g_cost = cnat (h s e)) ∨
    (∃ st', astarStep st = StepResult.next st' ∧ UInv R s e st' ∧
      e ∉ st'.popped ∧ ameasure R st' < ameasure R st) := by
  classical
  -- the least layer holding an unpopped class-D cell, with a witness on it
  have hTne : Set.Nonempty
      {k | ∃ x, classD R s e x ∧ x ∉ st.popped ∧ h s x = k} :=
    ⟨h s e, e, ⟨he, by simp [h_self]⟩, halive, rfl⟩
  set L := sInf {k | ∃ x, classD R s e x ∧ x ∉ st.popped ∧ h s x = k} with hLdef
  obtain ⟨x, hxD, hxnp, hxL⟩ :
      ∃ x, classD R s e x ∧ x ∉ st.popped ∧ h s x = L :=
    Nat.sInf_mem hTne
  have hLle : ∀ q, classD R s e q → q ∉ st.popped → L ≤ h s q := by
    intro q hq hnp
    exact Nat.sInf_le ⟨q, hq, hnp, rfl⟩
  -- the witness cell is already discovered: its predecessor toward the
  -- start sits on a strictly smaller layer, hence was popped and relaxed
  have hxdisc : (getNode st.grid x).g_cost ≠ ⊤ := by
    rcases Decidable.eq_or_ne x s with rfl | hxs
    · rw [hinv.g_start]
      exact cnat_ne_top 0
    · obtain ⟨hyD, hyh⟩ := classD_pred R s e x hxD hs hxs
      have hyp : stepToward x s ∈ st.popped := by
        by_contra hynp
        have hcon := hLle (stepToward x s) hyD hynp
        omega
      exact hinv.popped_relaxed (stepToward x s) hyp x
        (adjacent_symm x (stepToward x s) (stepToward_adjacent x s hxs)) hxD.1
  have hxhash : x ∈ st.open_set_hash := by
    rcases (hinv.disc_iff x hxD.1).mp hxdisc with hxp | hxh
    · exact absurd hxp hxnp
    · exact hxh
  obtain ⟨ex, hexmem, hexx⟩ := hinv.hash_entry x hxhash
  -- the queue is nonempty, so the pop fires
  obtain ⟨en, rest, hpop⟩ : ∃ en rest, popMin st.open_set = some (en, rest) := by
    rcases hq : st.open_set with _ | ⟨a, es⟩
    · rw [hq] at hexmem
      simp at hexmem
    · exact ⟨es.foldl pickMin a, (a :: es).erase (es.foldl pickMin a), rfl⟩
  obtain ⟨henmem, henmin⟩ := popMin_spec st.open_set en rest hpop
  have hrest : rest = st.open_set.erase en := popMin_erase st.open_set en rest hpop
  obtain ⟨henhash, henf, hencnt⟩ := hinv.entry_spec en henmem
  have hpinb : inb R en.2.2 := hinv.hash_inb en.2.2 henhash
  have hpnp : en.2.2 ∉ st.popped := hinv.hash_not_popped en.2.2 henhash
  have hpdisc : (getNode st.grid en.2.2).g_cost ≠ ⊤ :=
    (hinv.disc_iff en.2.2 hpinb).mpr (Or.inr henhash)
  have hgp : (getNode st.grid en.2.2).g_cost = cnat (h s en.2.2) := by
    rcases hinv.gopt en.2.2 hpinb with hc | hc
    · exact absurd hc hpdisc
    · exact hc
  -- the popped entry is class D and sits on the least unpopped layer
  obtain ⟨hexhash, hexf, hexcnt⟩ := hinv.entry_spec ex hexmem
  have hxDx : classD R s e ex.2.2 := by rw [hexx]; exact hxD
  have hexfD : ex.1 = cnat (h s e) := by
    rw [hexf, hexx]
    congr 1
    exact hxD.2
  have hminx : en.1 < ex.1 ∨ (en.1 = ex.1 ∧ en.2.1 ≤ ex.2.1) := henmin ex hexmem
  have hfge : cnat (h s e) ≤ en.1 := by
    rw [henf]
    exact (cnat_le _ _).mpr (f_lower_bound s e en.2.2)
  have henfD : en.1 = cnat (h s e) ∧ en.2.1 ≤ ex.2.1 := by
    rcases hminx with hlt | ⟨heq, hcnt⟩
    · exact absurd hlt (not_lt.mpr (by rw [hexfD]; exact hfge))
    · exact ⟨heq.trans hexfD, hcnt⟩
  have hpD : classD R s e en.2.2 := by
    refine ⟨hpinb, ?_⟩
    have hc := henfD.1
    rw [henf] at hc
    exact (cnat_inj _ _).mp hc
  have hpL : h s en.2.2 = L := by
    have h1 : L ≤ h s en.2.2 := hLle en.2.2 hpD hpnp
    have h2 : h s en.2.2 ≤ h s x + 1 := hinv.entry_layer en henmem hpD x hxD hxnp
    rcases Nat.lt_or_ge (h s en.2.2) (L + 1) with hcase | hcase
    · omega
    · exfalso
      have hlt : h s ex.2.2 < h s en.2.2 := by
        rw [hexx, hxL]
        omega
      have hord := hinv.entry_order ex hexmem en henmem hxDx hpD hlt
      omega
  rcases Decidable.eq_or_ne en.2.2 e with hge | hge
  · -- the popped cell is the goal: found, with the optimal cost recorded
    left
    refine ⟨popState st en rest,
      astarStep_found_eq st en rest hpop (hge.trans hinv.goal_eq.symm), ?_⟩
    show (getNode (updNode st.grid en.2.2
      (fun n => { n with is_in_open_set := false })) e).g_cost = cnat (h s e)
    rw [getNode_clearOpen_g, ← hge, hgp]
  · -- an interior pop: relax the neighbors, close the cell
    right
    have hgoalp : en.2.2 ≠ st.goal := by rw [hinv.goal_eq]; exact hge
    have hg1 : ∀ q, (getNode (popState st en rest).grid q).g_cost =
        (getNode st.grid q).g_cost :=
      fun q => getNode_clearOpen_g st.grid en.2.2 q
    have hst1 : staticOK R (popState st en rest).grid :=
      staticOK_setNode R st.grid en.2.2 _ hinv.static rfl rfl
    have hns : ∀ q, q ∈ (getNode (popState st en rest).grid en.2.2).neighbors ↔
        adjacent en.2.2 q ∧ inb R q :=
      (hst1.2.2 en.2.2 hpinb).2
    have hpn : en.2.2 ∉ (getNode (popState st en rest).grid en.2.2).neighbors :=
      fun hc => adjacent_irrefl en.2.2 ((hns en.2.2).mp hc).1
    have hundisc : ∀ q ∈ (getNode (popState st en rest).grid en.2.2).neighbors,
        (getNode (popState st en rest).grid q).g_cost = ⊤ →
        (h s q = h s en.2.2 + 1 ∧ q ∉ (popState st en rest).open_set_hash) := by
      intro q hqmem hgq
      obtain ⟨hadjq, hqinb⟩ := (hns q).mp hqmem
      rw [hg1 q] at hgq
      have hnod : q ∉ st.popped ∧ q ∉ st.open_set_hash := by
        constructor
        · intro hc
          exact (hinv.disc_iff q hqinb).mpr (Or.inl hc) hgq
        · intro hc
          exact (hinv.disc_iff q hqinb).mpr (Or.inr hc) hgq
      have hdist : h s q = h s en.2.2 + 1 := by
        rcases adjacent_h en.2.2 q s hadjq with hc | hc
        · exact hc
        · exfalso
          have hq1 : h q en.2.2 = 1 := by
            rcases adjacent_h en.2.2 q q hadjq with hc2 | hc2 <;>
              rw [h_self] at hc2 <;> omega
          have hqD : classD R s e q := by
            refine ⟨hqinb, ?_⟩
            have htr1 := h_triangle s q e
            have htr2 := h_triangle q en.2.2 e
            have hps := hpD.2
            omega
          have hcon := hLle q hqD hnod.1
          omega
      exact ⟨hdist, fun hc => hnod.2 (List.mem_of_mem_erase hc)⟩
    have hgoptq : ∀ q ∈ (getNode (popState st en rest).grid en.2.2).neighbors,
        (getNode (popState st en rest).grid q).g_cost = ⊤ ∨
        (getNode (popState st en rest).grid q).g_cost = cnat (h s q) := by
      intro q hqmem
      rw [hg1 q]
      exact hinv.gopt q ((hns q).mp hqmem).2
    have hgps : (getNode (popState st en rest).grid en.2.2).g_cost =
        cnat (h s en.2.2) := by
      rw [hg1 en.2.2]
      exact hgp
    obtain ⟨ents, a1, a2, a3, a4, a5, a6, a7, a8, a9, a10, a11, a12⟩ :=
      relaxedState_spec R s e en.2.2 (popState st en rest) hst1 hgps
        (fun q hq => (hns q).mp hq) hpn hundisc hgoptq
    set F := relaxedState e en.2.2 (popState st en rest) with hF
    have hsteq : astarStep st = StepResult.next (closeState en.2.2 F) := by
      rw [astarStep_next_eq st en rest hpop hgoalp, hF, hinv.goal_eq]
    have hnewfacts : ∀ en' ∈ ents,
        inb R en'.2.2 ∧ (getNode st.grid en'.2.2).g_cost = ⊤ ∧
        en'.2.2 ∉ st.popped ∧ en'.2.2 ∉ st.open_set_hash ∧
        h s en'.2.2 = h s en.2.2 + 1 ∧ en'.2.2 ≠ en.2.2 ∧
        st.count < en'.2.1 := by
      intro en' hen'
      obtain ⟨b1, b2, b3, b4, b5, b6, b7, b8⟩ := a8 en' hen'
      have hgtop : (getNode st.grid en'.2.2).g_cost = ⊤ := by
        rw [← hg1 en'.2.2]
        exact b4
      refine ⟨b3, hgtop, ?_, ?_, b5, ?_, b7⟩
      · intro hc
        exact (hinv.disc_iff en'.2.2 b3).mpr (Or.inl hc) hgtop
      · intro hc
        exact (hinv.disc_iff en'.2.2 b3).mpr (Or.inr hc) hgtop
      · intro hc
        exact hpdisc (hc ▸ hgtop)
    have hnewq : ∀ q ∈ ents.map (fun en' => en'.2.2),
        inb R q ∧ (getNode st.grid q).g_cost = ⊤ ∧ q ∉ st.popped ∧
        q ∉ st.open_set_hash ∧ h s q = h s en.2.2 + 1 ∧ q ≠ en.2.2 := by
      intro q hq
      obtain ⟨en', hen', hqe⟩ := List.mem_map.mp hq
      obtain ⟨i1, i2, i3, i4, i5, i6, i7⟩ := hnewfacts en' hen'
      rw [← hqe]
      exact ⟨i1, i2, i3, i4, i5, i6⟩
    have hgFold : ∀ q, q ∉ ents.map (fun en' => en'.2.2) →
        (getNode F.grid q).g_cost = (getNode st.grid q).g_cost := by
      intro q hq
      rw [a10 q hq, hg1 q]
    obtain ⟨c1, c2, c3, c4, c5, c6⟩ := closeState_fields en.2.2 F
    have hFstart : F.start = s := by
      rw [a5]
      exact hinv.start_eq
    have hgFp : (getNode F.grid en.2.2).g_cost = cnat (h s en.2.2) := by
      have hnot : en.2.2 ∉ ents.map (fun en' => en'.2.2) := by
        intro hc
        exact (hnewq en.2.2 hc).2.2.2.2.2 rfl
      rw [hgFold en.2.2 hnot]
      exact hgp
    have hg3 := closeState_g en.2.2 F s hFstart hgFp
    have hopen3 : (closeState en.2.2 F).open_set = rest ++ ents := by
      rw [c1, a1]
      rfl
    have hhash3 : (closeState en.2.2 F).open_set_hash =
        st.open_set_hash.erase en.2.2 ++ ents.map (fun en' => en'.2.2) := by
      rw [c2, a2]
      rfl
    have hcount3 : (closeState en.2.2 F).count = st.count + ents.length := by
      rw [c3, a3]
      rfl
    have hpopped3 : (closeState en.2.2 F).popped = st.popped ++ [en.2.2] := by
      rw [c4, a4]
      rfl
    have hstart3 : (closeState en.2.2 F).start = s := by
      rw [c5]
      exact hFstart
    have hgoal3 : (closeState en.2.2 F).goal = e := by
      rw [c6, a6]
      exact hinv.goal_eq
    have hstatic3 : staticOK R (closeState en.2.2 F).grid :=
      staticOK_closeState R en.2.2 F a7
    -- structure of the new bookkeeping lists
    have hndp3 : (st.popped ++ [en.2.2]).Nodup :=
      nodup_append_disjoint _ _ hinv.popped_nodup (List.nodup_singleton _)
        (fun y hy => by
          rw [List.mem_singleton.mp hy]
          exact hpnp)
    have hndh3 : (st.open_set_hash.erase en.2.2 ++
        ents.map (fun en' => en'.2.2)).Nodup :=
      nodup_append_disjoint _ _ (hinv.hash_nodup.erase _) a9
        (fun y hy hc => (hnewq y hy).2.2.2.1 (List.mem_of_mem_erase hc))
    have hnp3 : ∀ q ∈ st.open_set_hash.erase en.2.2 ++
        ents.map (fun en' => en'.2.2), q ∉ st.popped ++ [en.2.2] := by
      intro q hq
      rcases List.mem_append.mp hq with hc | hc
      · obtain ⟨hqne, hqh⟩ := (hinv.hash_nodup.mem_erase_iff).mp hc
        intro hc2
        rcases List.mem_append.mp hc2 with hc3 | hc3
        · exact hinv.hash_not_popped q hqh hc3
        · exact hqne (List.mem_singleton.mp hc3)
      · intro hc2
        rcases List.mem_append.mp hc2 with hc3 | hc3
        · exact (hnewq q hc).2.2.1 hc3
        · exact (hnewq q hc).2.2.2.2.2 (List.mem_singleton.mp hc3)
    have hinb_p3 : ∀ q ∈ st.popped ++ [en.2.2], inb R q := by
      intro q hq
      rcases List.mem_append.mp hq with hc | hc
      · exact (hinv.popped_classD q hc).1
      · rw [List.mem_singleton.mp hc]
        exact hpinb
    have hinb_h3 : ∀ q ∈ st.open_set_hash.erase en.2.2 ++
        ents.map (fun en' => en'.2.2), inb R q := by
      intro q hq
      rcases List.mem_append.mp hq with hc | hc
      · exact hinv.hash_inb q (List.mem_of_mem_erase hc)
      · exact (hnewq q hc).1
    refine ⟨closeState en.2.2 F, hsteq, ?_, ?_, ?_⟩
    · -- the invariant is preserved
      refine ⟨hstatic3, hstart3, hgoal3, ?_, ?_, ?_, ?_, ?_, ?_, ?_, ?_, ?_,
        ?_, ?_, ?_, ?_, ?_, ?_⟩
      · -- g_start
        rw [hg3 s]
        have hnot : s ∉ ents.map (fun en' => en'.2.2) := by
          intro hc
          have hcc := (hnewq s hc).2.1
          rw [hinv.g_start] at hcc
          exact cnat_ne_top 0 hcc
        rw [hgFold s hnot]
        exact hinv.g_start
      · -- gopt
        intro q hq
        rw [hg3 q]
        by_cases hmem : q ∈ ents.map (fun en' => en'.2.2)
        · right
          exact a11 q hmem
        · rw [hgFold q hmem]
          exact hinv.gopt q hq
      · -- disc_iff
        intro q hq
        rw [hg3 q, hpopped3, hhash3]
        by_cases hmem : q ∈ ents.map (fun en' => en'.2.2)
        · constructor
          · intro _
            exact Or.inr (List.mem_append_right _ hmem)
          · intro _
            rw [a11 q hmem]
            exact cnat_ne_top _
        · rw [hgFold q hmem]
          rcases Decidable.eq_or_ne q en.2.2 with hqp | hqp
          · constructor
            · intro _
              refine Or.inl (List.mem_append_right _ ?_)
              rw [hqp]
              exact List.mem_singleton.mpr rfl
            · intro _
              rw [hqp]
              exact hpdisc
          · rw [hinv.disc_iff q hq]
            constructor
            · rintro (hc | hc)
              · exact Or.inl (List.mem_append_left _ hc)
              · exact Or.inr (List.mem_append_left _
                  ((List.mem_erase_of_ne hqp).mpr hc))
            · rintro (hc | hc)
              · rcases List.mem_append.mp hc with hc2 | hc2
                · exact Or.inl hc2
                · exact absurd (List.mem_singleton.mp hc2) hqp
              · rcases List.mem_append.mp hc with hc2 | hc2
                · exact Or.inr (List.mem_of_mem_erase hc2)
                · exact absurd hc2 hmem
      · -- popped_classD
        intro q hq
        rw [hpopped3] at hq
        rcases List.mem_append.mp hq with hc | hc
        · exact hinv.popped_classD q hc
        · rw [List.mem_singleton.mp hc]
          exact hpD
      · -- popped_nodup
        rw [hpopped3]
        exact hndp3
      · -- hash_nodup
        rw [hhash3]
        exact hndh3
      · -- hash_inb
        intro q hq
        rw [hhash3] at hq
        exact hinb_h3 q hq
      · -- hash_not_popped
        intro q hq
        rw [hhash3] at hq
        rw [hpopped3]
        exact hnp3 q hq
      · -- hash_entry
        intro q hq
        rw [hhash3] at hq
        rw [hopen3]
        rcases List.mem_append.mp hq with hc | hc
        · obtain ⟨hqne, hqh⟩ := (hinv.hash_nodup.mem_erase_iff).mp hc
          obtain ⟨en', hen', hen'q⟩ := hinv.hash_entry q hqh
          have hne' : en' ≠ en := by
            intro hcc
            rw [hcc] at hen'q
            exact hqne hen'q.symm
          refine ⟨en', List.mem_append_left _ ?_, hen'q⟩
          rw [hrest]
          exact (List.mem_erase_of_ne hne').mpr hen'
        · obtain ⟨en', hen', hqe⟩ := List.mem_map.mp hc
          refine ⟨en', List.mem_append_right _ hen', hqe⟩
      · -- entry_spec
        intro en' hen'
        rw [hopen3] at hen'
        rw [hhash3, hcount3]
        rcases List.mem_append.mp hen' with hc | hc
        · have hcold : en' ∈ st.open_set := by
            rw [hrest] at hc
            exact List.mem_of_mem_erase hc
          obtain ⟨hsp1, hsp2, hsp3⟩ := hinv.entry_spec en' hcold
          have hne2 : en'.2.2 ≠ en.2.2 := by
            intro hcc
            have heq : en' = en :=
              List.inj_on_of_nodup_map hinv.entry_nodes_nodup hcold henmem hcc
            rw [hrest, heq] at hc
            exact ((List.Nodup.mem_erase_iff
              hinv.entry_nodes_nodup.of_map).mp hc).1 rfl
          refine ⟨List.mem_append_left _ ((List.mem_erase_of_ne hne2).mpr hsp1),
            hsp2, by omega⟩
        · obtain ⟨b1, b2, b3, b4, b5, b6, b7, b8⟩ := a8 en' hc
          refine ⟨List.mem_append_right _ (List.mem_map_of_mem _ hc), b6, ?_⟩
          exact b8
      · -- entry_nodes_nodup
        rw [hopen3, List.map_append]
        refine nodup_append_disjoint _ _ ?_ a9 ?_
        · refine List.Nodup.sublist ?_ hinv.entry_nodes_nodup
          rw [hrest]
          exact (List.erase_sublist _ _).map _
        · intro y hy hc
          obtain ⟨en'', hen'', heq⟩ := List.mem_map.mp hc
          have hold : en'' ∈ st.open_set := by
            rw [hrest] at hen''
            exact List.mem_of_mem_erase hen''
          have hhash2 : en''.2.2 ∈ st.open_set_hash :=
            (hinv.entry_spec en'' hold).1
          rw [heq] at hhash2
          exact (hnewq y hy).2.2.2.1 hhash2
      · -- popped_relaxed
        intro pp hpp q hadjq hqinb
        rw [hpopped3] at hpp
        rw [hg3 q]
        rcases List.mem_append.mp hpp with hc | hc
        · have hold := hinv.popped_relaxed pp hc q hadjq hqinb
          by_cases hmem : q ∈ ents.map (fun en' => en'.2.2)
          · rw [a11 q hmem]
            exact cnat_ne_top _
          · rw [hgFold q hmem]
            exact hold
        · have hceq : pp = en.2.2 := List.mem_singleton.mp hc
          have hqns : q ∈ (getNode (popState st en rest).grid en.2.2).neighbors :=
            (hns q).mpr ⟨by rw [← hceq]; exact hadjq, hqinb⟩
          exact a12 q hqns
      · -- layer_mono
        intro pp hpp q hqD hqnp
        rw [hpopped3] at hpp
        rw [hpopped3] at hqnp
        have hqnp' : q ∉ st.popped := fun hc => hqnp (List.mem_append_left _ hc)
        rcases List.mem_append.mp hpp with hc | hc
        · exact hinv.layer_mono pp hc q hqD hqnp'
        · rw [List.mem_singleton.mp hc, hpL]
          exact hLle q hqD hqnp'
      · -- entry_layer
        intro en' hen' hen'D q hqD hqnp
        rw [hopen3] at hen'
        rw [hpopped3] at hqnp
        have hqnp' : q ∉ st.popped := fun hc => hqnp (List.mem_append_left _ hc)
        rcases List.mem_append.mp hen' with hc | hc
        · have hcold : en' ∈ st.open_set := by
            rw [hrest] at hc
            exact List.mem_of_mem_erase hc
          exact hinv.entry_layer en' hcold hen'D q hqD hqnp'
        · have hl := (hnewfacts en' hc).2.2.2.2.1
          have hcon := hLle q hqD hqnp'
          omega
      · -- entry_order
        intro en1 hen1 en2 hen2 hD1 hD2 hlt
        rw [hopen3] at hen1 hen2
        rcases List.mem_append.mp hen1 with hc1 | hc1 <;>
          rcases List.mem_append.mp hen2 with hc2 | hc2
        · have ho1 : en1 ∈ st.open_set := by
            rw [hrest] at hc1
            exact List.mem_of_mem_erase hc1
          have ho2 : en2 ∈ st.open_set := by
            rw [hrest] at hc2
            exact List.mem_of_mem_erase hc2
          exact hinv.entry_order en1 ho1 en2 ho2 hD1 hD2 hlt
        · have ho1 : en1 ∈ st.open_set := by
            rw [hrest] at hc1
            exact List.mem_of_mem_erase hc1
          have hb1 := (hinv.entry_spec en1 ho1).2.2
          have hb2 := (hnewfacts en2 hc2).2.2.2.2.2.2
          omega
        · exfalso
          have ho2 : en2 ∈ st.open_set := by
            rw [hrest] at hc2
            exact List.mem_of_mem_erase hc2
          have hlay := hinv.entry_layer en2 ho2 hD2 x hxD hxnp
          have hl1 := (hnewfacts en1 hc1).2.2.2.2.1
          omega
        · exfalso
          have hl1 := (hnewfacts en1 hc1).2.2.2.2.1
          have hl2 := (hnewfacts en2 hc2).2.2.2.2.1
          omega
    · -- the goal is still unpopped
      rw [hpopped3]
      intro hc
      rcases List.mem_append.mp hc with hc2 | hc2
      · exact halive hc2
      · exact hge (List.mem_singleton.mp hc2).symm
    · -- the measure strictly decreases
      unfold ameasure
      rw [hopen3, hhash3, hpopped3]
      have hOlen : rest.length = st.open_set.length - 1 := by
        rw [hrest]
        exact List.length_erase_of_mem henmem
      have hO1 : 1 ≤ st.open_set.length :=
        List.length_pos.mpr (List.ne_nil_of_mem henmem)
      have hHlen : (st.open_set_hash.erase en.2.2).length =
          st.open_set_hash.length - 1 := List.length_erase_of_mem henhash
      have hH1 : 1 ≤ st.open_set_hash.length :=
        List.length_pos.mpr (List.ne_nil_of_mem henhash)
      have hbound : st.popped.length + 1 +
          (st.open_set_hash.length - 1 + ents.length) ≤ R * R := by
        have hnd : ((st.popped ++ [en.2.2]) ++
            (st.open_set_hash.erase en.2.2 ++
              ents.map (fun en' => en'.2.2))).Nodup :=
          nodup_append_disjoint _ _ hndp3 hndh3 hnp3
        have hbd : ∀ q ∈ (st.popped ++ [en.2.2]) ++
            (st.open_set_hash.erase en.2.2 ++
              ents.map (fun en' => en'.2.2)), q.1 < R ∧ q.2 < R := by
          intro q hq
          rcases List.mem_append.mp hq with hc | hc
          · exact hinb_p3 q hc
          · exact hinb_h3 q hc
        have hlen := nodup_bounded_length R _ hnd hbd
        simp only [List.length_append, List.length_singleton,
          List.length_map] at hlen
        rw [hHlen] at hlen
        omega
      simp only [List.length_append, List.length_singleton, List.length_map]
      rw [hOlen, hHlen]
      omega

theorem astarInit_uniform (R : Nat) (s e : Nat × Nat) (hs : inb R s)
    (he : inb R e) (hne : s ≠ e) :
    UInv R s e (astarInit (uniformGrid R s e) s e) := by
  obtain ⟨hstat0, hg0⟩ := uniformGrid_facts R s e hs he hne
  have hA : (getNode (uniformGrid R s e) s).g_cost + ((h s e : ℚ) : Cost) =
      cnat (h s s + h s e) := by
    rw [hg0 s hs, if_pos rfl]
    show cnat 0 + cnat (h s e) = cnat (h s s + h s e)
    rw [cnat_add, h_self]
  have hgEq : ∀ q, (getNode (astarInit (uniformGrid R s e) s e).grid q).g_cost =
      (getNode (uniformGrid R s e) q).g_cost := by
    intro q
    simp only [astarInit]
    rw [getNode_setNode]
    split
    · next hc =>
        rw [hc.1]
        split
        · rfl
        · exact (set_open_fields _).1
    · rfl
  have hstat1 : staticOK R (astarInit (uniformGrid R s e) s e).grid := by
    simp only [astarInit]
    split
    · exact staticOK_setNode R _ s _ hstat0 rfl rfl
    · exact staticOK_setNode R _ s _ hstat0 (set_open_fields _).2.2.1
        (set_open_fields _).2.2.2
  have hgq : ∀ q, inb R q →
      (getNode (astarInit (uniformGrid R s e) s e).grid q).g_cost =
      (if q = s then cnat 0 else ⊤) :=
    fun q hq => (hgEq q).trans (hg0 q hq)
  have hmem0 : ∀ en' ∈ (astarInit (uniformGrid R s e) s e).open_set,
      en'.1 = cnat (h s s + h s e) ∧ en'.2.1 = 0 ∧ en'.2.2 = s := by
    intro en' hen'
    simp only [astarInit] at hen'
    rw [List.mem_singleton] at hen'
    subst hen'
    refine ⟨?_, rfl, rfl⟩
    split
    · exact hA
    · exact (set_open_fields _).2.1.trans hA
  have hlen0 : (astarInit (uniformGrid R s e) s e).open_set.length = 1 := rfl
  obtain ⟨en0, hopen_eq⟩ := List.length_eq_one.mp hlen0
  have hhash_eq : (astarInit (uniformGrid R s e) s e).open_set_hash = [s] := rfl
  have hpop_eq : (astarInit (uniformGrid R s e) s e).popped = [] := rfl
  have hcnt_eq : (astarInit (uniformGrid R s e) s e).count = 0 := rfl
  refine ⟨hstat1, rfl, rfl, ?_, ?_, ?_, ?_, ?_, ?_, ?_, ?_, ?_, ?_, ?_, ?_,
    ?_, ?_, ?_⟩
  · -- g_start
    exact (hgq s hs).trans (if_pos rfl)
  · -- gopt
    intro q hq
    rw [hgq q hq]
    by_cases hqs : q = s
    · right
      rw [if_pos hqs, hqs, h_self]
    · left
      rw [if_neg hqs]
  · -- disc_iff
    intro q hq
    rw [hgq q hq, hpop_eq, hhash_eq]
    by_cases hqs : q = s
    · rw [if_pos hqs]
      constructor
      · intro _
        exact Or.inr (List.mem_singleton.mpr hqs)
      · intro _
        exact cnat_ne_top 0
    · rw [if_neg hqs]
      constructor
      · intro hc
        exact absurd rfl hc
      · rintro (hc | hc)
        · exact absurd hc (List.not_mem_nil q)
        · exact absurd (List.mem_singleton.mp hc) hqs
  · -- popped_classD
    intro q hq
    rw [hpop_eq] at hq
    exact absurd hq (List.not_mem_nil q)
  · -- popped_nodup
    rw [hpop_eq]
    exact List.nodup_nil
  · -- hash_nodup
    rw [hhash_eq]
    exact List.nodup_singleton s
  · -- hash_inb
    intro q hq
    rw [hhash_eq] at hq
    rw [List.mem_singleton.mp hq]
    exact hs
  · -- hash_not_popped
    intro q hq
    rw [hpop_eq]
    exact List.not_mem_nil q
  · -- hash_entry
    intro q hq
    rw [hhash_eq] at hq
    refine ⟨en0, by rw [hopen_eq]; exact List.mem_singleton.mpr rfl, ?_⟩
    exact ((hmem0 en0 (by rw [hopen_eq]; exact List.mem_singleton.mpr rfl)).2.2).trans
      (List.mem_singleton.mp hq).symm
  · -- entry_spec
    intro en' hen'
    obtain ⟨f1, f2, f3⟩ := hmem0 en' hen'
    refine ⟨?_, ?_, ?_⟩
    · rw [hhash_eq, f3]
      exact List.mem_singleton.mpr rfl
    · rw [f3, f1]
    · rw [f2, hcnt_eq]
  · -- entry_nodes_nodup
    rw [hopen_eq]
    simp
  · -- popped_relaxed
    intro p hp
    rw [hpop_eq] at hp
    exact absurd hp (List.not_mem_nil p)
  · -- layer_mono
    intro p hp
    rw [hpop_eq] at hp
    exact absurd hp (List.not_mem_nil p)
  · -- entry_layer
    intro en' hen' hD q hqD hqnp
    rw [(hmem0 en' hen').2.2, h_self]
    omega
  · -- entry_order
    intro en1 h1 en2 h2 hD1 hD2 hlt
    rw [(hmem0 en1 h1).2.2, (hmem0 en2 h2).2.2] at hlt
    exact absurd hlt (lt_irrefl _)

theorem astarInit_measure (R : Nat) (s e : Nat × Nat) (hs : inb R s) :
    ameasure R (astarInit (uniformGrid R s e) s e) = R * R := by
  have hR : 0 < R := Nat.lt_of_le_of_lt (Nat.zero_le _) hs.1
  have h1 : (astarInit (uniformGrid R s e) s e).open_set.length = 1 := rfl
  unfold ameasure
  rw [h1]
  show 1 + (R * R - (0 + 1)) = R * R
  have hpos : 1 ≤ R * R := Nat.mul_pos hR hR
  omega

theorem astarLoop_uniform (R : Nat) (s e : Nat × Nat) (hs : inb R s)
    (he : inb R e) (hne : s ≠ e) :
    ∀ (fuel : Nat) (st : AState), UInv R s e st → e ∉ st.popped →
      ameasure R st < fuel →
      ∃ st', astarLoop fuel st = AResult.success st' ∧
        (getNode st'.grid e).g_cost = cnat (h s e) := by
  intro fuel
  induction fuel with
  | zero =>
      intro st _ _ hm
      exact absurd hm (Nat.not_lt_zero _)
  | succ fuel ih =>
      intro st hinv halive hm
      rcases astarStep_uniform R s e hs he hne st hinv halive with
        ⟨st', heq, hg⟩ | ⟨st', heq, hinv', halive', hdec⟩
      · refine ⟨st', ?_, hg⟩
        simp only [astarLoop, heq]
      · obtain ⟨st'', h1, h2⟩ := ih st' hinv' halive' (by omega)
        refine ⟨st'', ?_, h2⟩
        simp only [astarLoop, heq]
        exact h1

/-- C4: on every all-Grass board (uniform movement cost 1, no obstacles)
with Start and End placed anywhere distinct, the A* run succeeds and the
total cost it reports — the goal cell's g_cost at success — equals the
Manhattan distance `|row_S - row_E| + |col_S - col_E|` between them (any
fuel beyond the R*R pops the run can make suffices for the embedded
while loop); in particular on the 5×5 all-Grass board from (0,0) to
(4,4) the run succeeds with total cost 8.0 and the reconstructed parent
chain has 9 cells. -/
theorem C4_uniform_manhattan :
    (∀ (R fuel : Nat) (s e : Nat × Nat), inb R s → inb R e → s ≠ e →
      R * R < fuel →
      ∃ st', runAstar fuel (uniformGrid R s e) s e = AResult.success st' ∧
        (getNode st'.grid e).g_cost = cnat (h s e)) ∧
    (∃ st', runAstar 26 (uniformGrid 5 (0, 0) (4, 4)) (0, 0) (4, 4) =
        AResult.success st' ∧
      (getNode st'.grid (4, 4)).g_cost = ((8 : ℚ) : Cost) ∧
      (parentChain 25 st'.grid (4, 4)).length = 9) := by
  constructor
  · intro R fuel s e hs he hne hfuel
    have hinv := astarInit_uniform R s e hs he hne
    have hmeas := astarInit_measure R s e hs
    have hinit_pop : e ∉ (astarInit (uniformGrid R s e) s e).popped := by
      intro hc
      exact absurd hc (List.not_mem_nil e)
    exact astarLoop_uniform R s e hs he hne fuel
      (astarInit (uniformGrid R s e) s e) hinv hinit_pop (by omega)
  · refine ⟨(runAstar 26 (uniformGrid 5 (0, 0) (4, 4)) (0, 0) (4, 4)).state,
      ?_, ?_, ?_⟩
    · with_unfolding_all rfl
    · with_unfolding_all decide
    · with_unfolding_all decide

/-- Witness for C4 at a concrete instance: on the 2×2 all-Grass board
the run from (0,0) to (1,1) succeeds and reports cost `h (0,0) (1,1)`. -/
theorem C4_witness :
    inb 2 (0, 0) ∧ inb 2 (1, 1) ∧ ((0, 0) : Nat × Nat) ≠ (1, 1) ∧
    2 * 2 < 5 ∧
    (∃ st', runAstar 5 (uniformGrid 2 (0, 0) (1, 1)) (0, 0) (1, 1) =
        AResult.success st' ∧
      (getNode st'.grid (1, 1)).g_cost = cnat (h (0, 0) (1, 1))) :=
  ⟨by decide, by decide, by decide, by decide,
    C4_uniform_manhattan.1 2 5 (0, 0) (1, 1) (by decide) (by decide)
      (by decide) (by decide)⟩

end AstarSpec
